import Mathlib

/-!
# NativeLibraryHelper

A shallow embedding of `core/jni/com_android_internal_content_NativeLibraryHelper.cpp`:
the filename validator, the iterator over the shared libraries of an archive,
ABI resolution, and copy-if-changed extraction.

Conventions of the embedding.

* A C string is the list of its bytes before the terminator; bytes are `Char`s.
  Positions inside a string are offsets from its first byte, so the pointer
  `fileName + k` is the offset `k` and the string read there is `fileName.drop k`.
* `size_t` values are natural numbers reduced modulo `2 ^ w`, where `w` is the
  width of `size_t` on the platform (32 or 64).
* Status codes are integers, as in the source, where the codes of
  `install_status_t` and the indices of the preference list share one `int`.
* The archive reader, the C library, the kernel and the two dynamically loaded
  libraries are collaborators; what they answer in one call is a parameter.
-/

namespace NativeLibraryHelper

/-! ## Constants -/

def APK_LIB : List Char := "lib/".toList
def APK_LIB_LEN : Nat := 4

def LIB_PREFIX : List Char := "/lib".toList
def LIB_PREFIX_LEN : Nat := 4

def LIB_SUFFIX : List Char := ".so".toList
def LIB_SUFFIX_LEN : Nat := 3

def GDBSERVER : List Char := "gdbserver".toList
def GDBSERVER_LEN : Nat := 9

def TMP_FILE_PATTERN : List Char := "/tmp.XXXXXX".toList
def TMP_FILE_PATTERN_LEN : Nat := 11

/-- The size of the iterator's name buffer, `char fileName[PATH_MAX]`. -/
def PATH_MAX : Nat := 4096

/-- The codes of `install_status_t`; they travel in an `int` next to list indices. -/
abbrev install_status_t := Int

def INSTALL_SUCCEEDED : install_status_t := 1
def INSTALL_FAILED_INVALID_APK : install_status_t := -2
def INSTALL_FAILED_INSUFFICIENT_STORAGE : install_status_t := -4
def INSTALL_FAILED_CONTAINER_ERROR : install_status_t := -18
def INSTALL_FAILED_INTERNAL_ERROR : install_status_t := -110
def INSTALL_FAILED_NO_MATCHING_ABIS : install_status_t := -113
def NO_NATIVE_LIBRARIES : install_status_t := -114

/-! ## The C library on strings -/

/-- The terminator of a C string. -/
def NUL : Char := Char.ofNat 0

/-- The C string held by a buffer: its bytes before the first terminator. -/
def cstr (buf : List Char) : List Char :=
  buf.takeWhile (fun c => c != NUL)

/-- Subtraction of `size_t` values, modulo `2 ^ w`. -/
def subW (w a b : Nat) : Nat :=
  (a % 2 ^ w + (2 ^ w - b % 2 ^ w)) % 2 ^ w

/-- Addition of `size_t` values, modulo `2 ^ w`. -/
def addW (w a b : Nat) : Nat :=
  (a + b) % 2 ^ w

/-- The call `strncmp(a, b, n)` on two strings: `0` when they agree on their first `n`
bytes (or entirely, when both end earlier), `1` when they differ there. The source
only tests the result against zero. -/
def strncmp (a b : List Char) (n : Nat) : Nat :=
  if a.take n = b.take n then 0 else 1

/-- The call `strrchr(s, c)` for a byte `c` other than the terminator: the offset of the
last occurrence of `c`, or `none` for the null pointer. -/
def strrchr : List Char → Char → Option Nat
  | [], _ => none
  | x :: xs, c =>
    match strrchr xs c with
    | some i => some (i + 1)
    | none => if x = c then some 0 else none

/-- The call `strlcpy(dst + off, src, size)`, where `dst` lists the bytes the buffer
holds so far: at most `size - 1` bytes of `src` and a terminator are stored from offset
`off` on, nothing at all when `size` is `0`; the length of `src` is returned. -/
def strlcpy (dst : List Char) (off : Nat) (src : List Char) (size : Nat) : List Char × Nat :=
  (if size = 0 then dst else dst.take off ++ src.take (size - 1), src.length)

/-! ## isFilenameSafe -/

/-- The `case` labels of the `switch` in `isFilenameSafe` that advance the offset. -/
def isSafeChar (c : Char) : Bool :=
  ('A' ≤ c && c ≤ 'Z') || ('a' ≤ c && c ≤ 'z') || ('0' ≤ c && c ≤ '9') ||
  c == '+' || c == ',' || c == '-' || c == '.' || c == '/' || c == '=' || c == '_'

/-- The function `isFilenameSafe`, run on the bytes found from `filename` on. Reaching the
end of the list is reading the terminator; a terminator inside the list ends the scan
in the same way. -/
def isFilenameSafe : List Char → Bool
  | [] => true
  | c :: rest =>
    if c = NUL then true
    else if isSafeChar c then isFilenameSafe rest
    else false

/-! ## The archive reader (`ZipFileRO`) -/

/-- What `getEntryInfo` reports about an entry. -/
structure EntryInfo where
  uncompLen : Nat
  modWhen : Nat
  crc32 : Nat
deriving DecidableEq, Repr

/-- An entry of the archive, as the reader answers about it: `name` is the stored
name (`none` when the reader cannot produce it), `info` is the answer of
`getEntryInfo` (`none` when it fails), `data` are the bytes `uncompressEntry` writes
to the descriptor and `uncompressOk` is whether it reports success. -/
structure ZipEntry where
  name : Option (List Char)
  info : Option EntryInfo
  data : List Nat
  uncompressOk : Bool
deriving DecidableEq, Repr

/-- An open archive: its entries in directory order, and whether `startIteration`
succeeds. -/
structure ZipFileRO where
  entries : List ZipEntry
  startIteration : Bool
deriving DecidableEq, Repr

/-- Modelled from the spec: `ZipFileRO::getEntryFileName` (libs/androidfw, not among
the sources), "get-entry-name(entry) → name | failure". The name is stored with a
terminator in the caller's buffer of `bufLen` bytes, so a name that does not fit is a
failure, and the string the caller then reads ends at the first terminator. -/
def getEntryFileName (e : ZipEntry) (bufLen : Nat) : Option (List Char) :=
  match e.name with
  | none => none
  | some n => if n.length + 1 ≤ bufLen then some (cstr n) else none

/-- Modelled from the spec: `ZipFileRO::findEntryByName`, "find-entry-by-name(handle,
name) → entry | not-found". -/
def findEntryByName (zipFile : ZipFileRO) (fileName : List Char) : Option ZipEntry :=
  zipFile.entries.find? (fun e => e.name == some fileName)

/-! ## NativeLibrariesIterator -/

/-- The least length of an accepted name:
`APK_LIB_LEN + 2 + LIB_PREFIX_LEN + 1 + LIB_SUFFIX_LEN`. -/
def minLength : Nat := APK_LIB_LEN + 2 + LIB_PREFIX_LEN + 1 + LIB_SUFFIX_LEN

/-- The body of the loop of `NativeLibrariesIterator::next` once the name of the entry
is in `fileName`: `none` is `continue`, `some lastSlash` is `break` with `mLastSlash`
set. The null result of `strrchr`, excluded by the test on `APK_LIB` (the source
asserts it), is treated as `continue`. -/
def acceptEntry (fileName : List Char) : Option Nat :=
  if strncmp fileName APK_LIB APK_LIB_LEN ≠ 0 then none
  else
    let fileNameLen := fileName.length
    if fileNameLen < minLength then none
    else
      match strrchr fileName '/' with
      | none => none
      | some lastSlash =>
        if strncmp (fileName.drop (lastSlash + 1)) GDBSERVER GDBSERVER_LEN = 0 then
          some lastSlash
        else if strncmp (fileName.drop (fileNameLen - LIB_SUFFIX_LEN)) LIB_SUFFIX LIB_SUFFIX_LEN ≠ 0
            || strncmp (fileName.drop lastSlash) LIB_PREFIX LIB_PREFIX_LEN ≠ 0 then
          none
        else if !isFilenameSafe (fileName.drop (lastSlash + 1)) then
          none
        else
          some lastSlash

/-- The iterator: `mCookie` holds the entries the cursor has not visited yet,
`fileName` the name buffer, `mLastSlash` the offset of the recorded slash (the null
pointer of the constructor is offset `0`; it is not read before `next` succeeds). -/
structure NativeLibrariesIterator where
  mCookie : List ZipEntry
  fileName : List Char
  mLastSlash : Nat
deriving DecidableEq, Repr

/-- The function `NativeLibrariesIterator::create`. -/
def NativeLibrariesIterator.create (zipFile : ZipFileRO) : Option NativeLibrariesIterator :=
  if zipFile.startIteration then some ⟨zipFile.entries, [], 0⟩ else none

/-- The `while` loop of `NativeLibrariesIterator::next` over the remaining entries. -/
def nextLoop : List ZipEntry → List Char → Nat → Option ZipEntry × NativeLibrariesIterator
  | [], fileName, mLastSlash => (none, ⟨[], fileName, mLastSlash⟩)
  | e :: cookie, fileName, mLastSlash =>
    match getEntryFileName e PATH_MAX with
    | none => nextLoop cookie fileName mLastSlash
    | some name =>
      match acceptEntry name with
      | none => nextLoop cookie name mLastSlash
      | some lastSlash => (some e, ⟨cookie, name, lastSlash⟩)

/-- The function `NativeLibrariesIterator::next`: the entry returned (`none` for the
null entry) and the iterator afterwards. -/
def NativeLibrariesIterator.next (it : NativeLibrariesIterator) :
    Option ZipEntry × NativeLibrariesIterator :=
  nextLoop it.mCookie it.fileName it.mLastSlash

/-- The function `NativeLibrariesIterator::currentEntry`. -/
def NativeLibrariesIterator.currentEntry (it : NativeLibrariesIterator) : List Char :=
  it.fileName

/-- The function `NativeLibrariesIterator::lastSlash`. -/
def NativeLibrariesIterator.lastSlash (it : NativeLibrariesIterator) : Nat :=
  it.mLastSlash

/-! ## The dynamically loaded collaborators -/

/-- A filter object of `libapkscanner.so`. `FilterLibraryFunc` receives the per-name
callback (name buffer, length, parameter block) and the parameter block, and answers
its return code and the parameter block as the callbacks left it; which names it
feeds to the callback is its own business. -/
structure PFilterObject : Type 1 where
  FilterLibraryFunc : (σ : Type) → (List Char → Nat → σ → Int × σ) → σ → Int × σ
  HasRenderScriptFunc : Int

/-- What the process finds when it binds its optional libraries. `apkScanLib` is
`some` when `initApkScanLib()` is `LIB_INITED_AND_SUCCESS`, and then gives the answer
of `GetFilterObjectFunc` for the descriptor of an archive (`none` is the null filter).
`assetsVerifier` is `some` when `initAssetsVerifierLib()` is `LIB_INITED_AND_SUCCESS`,
and then is `GetAssetsStatusFunc`. -/
structure Host : Type 1 where
  apkScanLib : Option (ZipFileRO → Option PFilterObject)
  assetsVerifier : Option (ZipFileRO → List (List Char) → Nat → Int)

/-- The filter object used for an archive, if the library is bound and has one. -/
def Host.filter (host : Host) (zipFile : ZipFileRO) : Option PFilterObject :=
  match host.apkScanLib with
  | none => none
  | some GetFilterObjectFunc => GetFilterObjectFunc zipFile

/-! ## findSupportedAbi -/

/-- The parameter block `LibFileAbiDealer`. -/
structure LibFileAbiDealer where
  status : Int
  numAbis : Nat
  supportedAbis : List (List Char)
deriving DecidableEq, Repr

/-- The `for` loop of `dealLibAbiFile` from index `i` on, over the labels not yet
compared: the status and the return value `ret`. -/
def dealLibAbiFileFor (fileName : List Char) (abiSize : Nat) :
    List (List Char) → Nat → Int → Int × Int
  | [], _, status => (status, 0)
  | abi :: rest, i, status =>
    if abi.length = abiSize && strncmp (fileName.drop APK_LIB_LEN) abi abiSize = 0 then
      if (((i : Int) < status) && (status ≥ 0)) || (status < 0) then
        if (0 : Int) = (i : Int) then ((i : Int), 1)
        else dealLibAbiFileFor fileName abiSize rest (i + 1) (i : Int)
      else dealLibAbiFileFor fileName abiSize rest (i + 1) status
    else dealLibAbiFileFor fileName abiSize rest (i + 1) status

/-- The callback `dealLibAbiFile`. The name is the buffer cut at `fileNameLen`. A name
without any slash makes the source subtract from a null pointer; no label is matched
then. -/
def dealLibAbiFile (w : Nat) (fileName : List Char) (fileNameLen : Nat)
    (dealer : LibFileAbiDealer) : Int × LibFileAbiDealer :=
  let name := cstr (fileName.take fileNameLen)
  let status :=
    if dealer.status = NO_NATIVE_LIBRARIES then INSTALL_FAILED_NO_MATCHING_ABIS
    else dealer.status
  match strrchr name '/' with
  | none => (0, { dealer with status := status })
  | some lastSlash =>
    let abiSize := subW w lastSlash APK_LIB_LEN
    let r := dealLibAbiFileFor name abiSize (dealer.supportedAbis.take dealer.numAbis) 0 status
    (r.2, { dealer with status := r.1 })

/-- The `for` loop over the preference list in the default scan of `findSupportedAbi`,
from index `i` on, over the labels not yet compared. -/
def findSupportedAbiFor (fileName : List Char) (abiSize : Nat) :
    List (List Char) → Nat → Int → Int
  | [], _, status => status
  | abi :: rest, i, status =>
    if abi.length = abiSize && strncmp (fileName.drop APK_LIB_LEN) abi abiSize = 0 then
      if (((i : Int) < status) && (status ≥ 0)) || (status < 0) then
        findSupportedAbiFor fileName abiSize rest (i + 1) (i : Int)
      else findSupportedAbiFor fileName abiSize rest (i + 1) status
    else findSupportedAbiFor fileName abiSize rest (i + 1) status

/-- The `while ((entry = it->next()) != NULL)` loop of `findSupportedAbi`; every turn
consumes at least one entry of the cursor, and `fuel` bounds the number of turns. -/
def findSupportedAbiWhile (w : Nat) (supportedAbis : List (List Char)) :
    Nat → NativeLibrariesIterator → Int → Int
  | 0, _, status => status
  | fuel + 1, it, status =>
    match it.next with
    | (none, _) => status
    | (some _, it) =>
      let status :=
        if status = NO_NATIVE_LIBRARIES then INSTALL_FAILED_NO_MATCHING_ABIS else status
      let fileName := it.currentEntry
      let lastSlash := it.lastSlash
      let abiSize := subW w lastSlash APK_LIB_LEN
      findSupportedAbiWhile w supportedAbis fuel it
        (findSupportedAbiFor fileName abiSize supportedAbis 0 status)

/-- The function `findSupportedAbi`. The handle is `none` for the null archive. -/
def findSupportedAbi (w : Nat) (host : Host) (apkHandle : Option ZipFileRO)
    (supportedAbis : List (List Char)) : Int :=
  let numAbis := supportedAbis.length
  match apkHandle with
  | none => INSTALL_FAILED_INVALID_APK
  | some zipFile =>
    let status := NO_NATIVE_LIBRARIES
    let filtered : Option Int :=
      match host.filter zipFile with
      | none => none
      | some filter =>
        let r := filter.FilterLibraryFunc LibFileAbiDealer (dealLibAbiFile w)
          ⟨status, numAbis, supportedAbis⟩
        if 0 = r.1 then
          let status := r.2.status
          if status = NO_NATIVE_LIBRARIES then
            match host.assetsVerifier with
            | some GetAssetsStatusFunc => some (GetAssetsStatusFunc zipFile supportedAbis numAbis)
            | none => some status
          else some status
        else none
    match filtered with
    | some status => status
    | none =>
      let isFilterLib := false
      match NativeLibrariesIterator.create zipFile with
      | none => INSTALL_FAILED_INVALID_APK
      | some it =>
        let status := findSupportedAbiWhile w supportedAbis (it.mCookie.length + 1) it status
        let asset_status :=
          if status ≥ 0 && !isFilterLib then
            match host.assetsVerifier with
            | some GetAssetsStatusFunc => GetAssetsStatusFunc zipFile supportedAbis numAbis
            | none => NO_NATIVE_LIBRARIES
          else NO_NATIVE_LIBRARIES
        if asset_status ≠ NO_NATIVE_LIBRARIES then asset_status else status

/-! ## iterateOverNativeFiles -/

/-- The parameter block `LibFileDealer`: the argument of the callback and the last
status; the archive, the callback and the label are fixed during a call. -/
structure LibFileDealer (σ : Type) where
  callArg : σ
  ret : install_status_t

/-- The callback `dealLibFile`. A name without any slash makes the source subtract from
a null pointer; the label is not matched then. -/
def dealLibFile {σ : Type} (w : Nat) (zipFile : ZipFileRO)
    (callFunc : σ → ZipFileRO → Option ZipEntry → List Char → install_status_t × σ)
    (cpuAbi : List Char) (fileName : List Char) (fileNameLen : Nat)
    (dealer : LibFileDealer σ) : Int × LibFileDealer σ :=
  let name := cstr (fileName.take fileNameLen)
  match strrchr name '/' with
  | none => (0, dealer)
  | some lastSlash =>
    let cpuAbiRegionSize := subW w lastSlash APK_LIB_LEN
    if cpuAbi.length = cpuAbiRegionSize
        && strncmp (name.drop APK_LIB_LEN) cpuAbi cpuAbiRegionSize = 0 then
      let entry := findEntryByName zipFile name
      let r := callFunc dealer.callArg zipFile entry (name.drop (lastSlash + 1))
      if r.1 ≠ INSTALL_SUCCEEDED then (1, ⟨r.2, r.1⟩) else (0, ⟨r.2, r.1⟩)
    else (0, dealer)

/-- The `while ((entry = it->next()) != NULL)` loop of `iterateOverNativeFiles`; every
turn consumes at least one entry of the cursor, and `fuel` bounds the number of turns. -/
def iterateOverNativeFilesWhile {σ : Type} (w : Nat) (zipFile : ZipFileRO) (cpuAbi : List Char)
    (callFunc : σ → ZipFileRO → Option ZipEntry → List Char → install_status_t × σ) :
    Nat → NativeLibrariesIterator → σ → install_status_t × σ
  | 0, _, callArg => (INSTALL_SUCCEEDED, callArg)
  | fuel + 1, it, callArg =>
    match it.next with
    | (none, _) => (INSTALL_SUCCEEDED, callArg)
    | (some entry, it) =>
      let fileName := it.currentEntry
      let lastSlash := it.lastSlash
      let cpuAbiRegionSize := subW w lastSlash APK_LIB_LEN
      if cpuAbi.length = cpuAbiRegionSize
          && strncmp (fileName.drop APK_LIB_LEN) cpuAbi cpuAbiRegionSize = 0 then
        let r := callFunc callArg zipFile (some entry) (fileName.drop (lastSlash + 1))
        if r.1 ≠ INSTALL_SUCCEEDED then (r.1, r.2)
        else iterateOverNativeFilesWhile w zipFile cpuAbi callFunc fuel it r.2
      else iterateOverNativeFilesWhile w zipFile cpuAbi callFunc fuel it callArg

/-- The function `iterateOverNativeFiles`: the status returned, and the argument of the
callback (with whatever the callback changes) afterwards. `javaCpuAbi` is `none` when
the label cannot be read (`c_str()` is null). `filtered` is the outcome of the
accelerated branch: the result it returns, if it returns, and the argument of the
callback as the calls made through the accelerator left it, with which the default
iteration goes on when the accelerator gives a non-zero code. -/
def iterateOverNativeFiles {σ : Type} (w : Nat) (host : Host) (apkHandle : Option ZipFileRO)
    (javaCpuAbi : Option (List Char))
    (callFunc : σ → ZipFileRO → Option ZipEntry → List Char → install_status_t × σ)
    (callArg : σ) : install_status_t × σ :=
  match apkHandle with
  | none => (INSTALL_FAILED_INVALID_APK, callArg)
  | some zipFile =>
    let filtered : Option (install_status_t × σ) × σ :=
      match host.filter zipFile with
      | none => (none, callArg)
      | some filter =>
        match javaCpuAbi with
        | none => (some (INSTALL_FAILED_INVALID_APK, callArg), callArg)
        | some cpuAbi =>
          let r := filter.FilterLibraryFunc (LibFileDealer σ)
            (dealLibFile w zipFile callFunc cpuAbi) ⟨callArg, INSTALL_SUCCEEDED⟩
          if 0 = r.1 then (some (r.2.ret, r.2.callArg), r.2.callArg)
          else (none, r.2.callArg)
    match filtered with
    | (some result, _) => result
    | (none, callArg) =>
      match NativeLibrariesIterator.create zipFile with
      | none => (INSTALL_FAILED_INVALID_APK, callArg)
      | some it =>
        match javaCpuAbi with
        | none => (INSTALL_FAILED_INVALID_APK, callArg)
        | some cpuAbi =>
          iterateOverNativeFilesWhile w zipFile cpuAbi callFunc (it.mCookie.length + 1) it callArg

/-! ## The filesystem and the C library on files -/

/-- A file as `lstat64` and `open` see it: whether it is a regular file, its bytes
(`st_size` is their number), its times, its permission bits, and whether opening it
for reading succeeds. -/
structure Inode where
  isReg : Bool
  content : List Nat
  mtime : Int
  atime : Int
  mode : Nat
  canRead : Bool
deriving DecidableEq, Repr

/-- The state of the filesystem: the file found at each path, if any. -/
abbrev FileSystem := List Char → Option Inode

/-- The filesystem with the file at `path` replaced (or removed, with `none`). -/
def FileSystem.set (fs : FileSystem) (path : List Char) (v : Option Inode) : FileSystem :=
  fun p => if p = path then v else fs p

/-- What the C library, zlib and the kernel answer during one call of
`copyFileIfChanged`: `crc32` is zlib's running checksum, `zipTime` is
`zipTimeToTimespec` followed by `mktime`, `now` is the clock, `mkstempChars` are the six
characters `mkstemp` settles on (`none` when it cannot create a file), the three flags
say whether `utimes`, `chmod` and `rename` succeed, and `staleAtime` is what the
`st_atime` of a `stat64` that `lstat64` did not fill happens to hold. -/
structure Sys where
  crc32 : Nat → List Nat → Nat
  zipTime : Nat → Int
  now : Int
  mkstempChars : Option (List Char)
  utimesOk : Bool
  chmodOk : Bool
  renameOk : Bool
  staleAtime : Int

/-- The size of the buffer `crcBuffer`. -/
def crcBufferSize : Nat := 16384

/-- The read loop of `isFileDifferent` over the bytes not read yet: each `read` fills
the buffer with the next bytes and the checksum is advanced, until `read` returns `0`.
Every turn consumes at least one byte, and `fuel` bounds the number of turns. -/
def crcWhile (crc32 : Nat → List Nat → Nat) : Nat → List Nat → Nat → Nat
  | 0, _, crc => crc
  | fuel + 1, unread, crc =>
    let crcBuffer := unread.take crcBufferSize
    if crcBuffer.length > 0 then
      crcWhile crc32 fuel (unread.drop crcBufferSize) (crc32 crc crcBuffer)
    else crc

/-- The function `isFileDifferent`: its result, and the `stat64` it leaves in `st`
(`none` when `lstat64` fails and `st` is not filled). -/
def isFileDifferent (sys : Sys) (fs : FileSystem) (filePath : List Char) (fileSize : Nat)
    (modifiedTime : Int) (zipCrc : Nat) : Bool × Option Inode :=
  match fs filePath with
  | none => (true, none)
  | some st =>
    if !st.isReg then (true, some st)
    else if st.content.length ≠ fileSize then (true, some st)
    else if st.mtime ≠ modifiedTime then (true, some st)
    else if !st.canRead then (true, some st)
    else
      let crc := sys.crc32 0 []
      let crc := crcWhile sys.crc32 (st.content.length + 1) st.content crc
      if crc ≠ zipCrc then (true, some st)
      else (false, some st)

/-- The call `mkstemp(template)`: when the template ends in six `X` and the C library
finds six characters giving a name not in use, the file is created empty with mode
0600 and the template becomes its name. -/
def mkstemp (sys : Sys) (fs : FileSystem) (template : List Char) :
    Option (List Char × FileSystem) :=
  if template.drop (template.length - 6) = "XXXXXX".toList then
    match sys.mkstempChars with
    | none => none
    | some chars =>
      let name := template.take (template.length - 6) ++ chars
      if chars.length = 6 ∧ fs name = none then
        some (name, fs.set name (some ⟨true, [], sys.now, sys.now, 384, true⟩))
      else none
  else none

/-- The bytes `uncompressEntry` writes through the descriptor of the file at `path`. -/
def writeFile (sys : Sys) (fs : FileSystem) (path : List Char) (data : List Nat) : FileSystem :=
  match fs path with
  | none => fs
  | some f => fs.set path (some { f with content := f.content ++ data, mtime := sys.now })

/-- The call `unlink(path)`. -/
def unlink (fs : FileSystem) (path : List Char) : FileSystem :=
  fs.set path none

/-- The call `utimes(path, times)` when it succeeds. -/
def utimes (fs : FileSystem) (path : List Char) (atime mtime : Int) : FileSystem :=
  match fs path with
  | none => fs
  | some f => fs.set path (some { f with atime := atime, mtime := mtime })

/-- The call `chmod(path, mode)` when it succeeds. -/
def chmod (fs : FileSystem) (path : List Char) (mode : Nat) : FileSystem :=
  match fs path with
  | none => fs
  | some f => fs.set path (some { f with mode := mode })

/-- The call `rename(from, to)` when it succeeds: the file is found at `to` and no
longer at `from`; renaming a path to itself changes nothing. -/
def rename (fs : FileSystem) (src dst : List Char) : FileSystem :=
  if src = dst then fs else (fs.set dst (fs src)).set src none

/-- A byte stored at offset `k` of a buffer holding `buf`: it replaces the byte there,
or the terminator when `k` is the end of the string. -/
def storeByte (buf : List Char) (k : Nat) (c : Char) : List Char :=
  if k < buf.length then buf.set k c else buf.take k ++ [c]

/-! ## copyFileIfChanged and sumFiles -/

/-- The function `sumFiles`; its argument is the running total, a `size_t`. -/
def sumFiles (w : Nat) (total : Nat) (_zipFile : ZipFileRO) (zipEntry : Option ZipEntry)
    (_fileName : List Char) : install_status_t × Nat :=
  match zipEntry.bind (fun e => e.info) with
  | none => (INSTALL_FAILED_INVALID_APK, total)
  | some info => (INSTALL_SUCCEEDED, addW w total info.uncompLen)

/-- The part "Build local file path" of `copyFileIfChanged`: the contents of
`localFileName`, or the status returned when a length check fails. -/
def buildLocalFileName (w : Nat) (nativeLibPath fileName : List Char) :
    Except install_status_t (List Char) :=
  let fileNameLen := fileName.length
  let sizeofLocalFileName := addW w (addW w nativeLibPath.length fileNameLen) 2
  let r := strlcpy [] 0 nativeLibPath sizeofLocalFileName
  if r.2 ≠ nativeLibPath.length then .error INSTALL_FAILED_INTERNAL_ERROR
  else
    let localFileName := storeByte r.1 nativeLibPath.length '/'
    let r := strlcpy localFileName (nativeLibPath.length + 1) fileName
      (subW w (subW w sizeofLocalFileName nativeLibPath.length) 1)
    if r.2 ≠ fileNameLen then .error INSTALL_FAILED_INTERNAL_ERROR
    else .ok r.1

/-- The part of `copyFileIfChanged` that fills `localTmpFileName`: the template handed
to `mkstemp`, or the status returned when a length check fails. -/
def buildLocalTmpFileName (w : Nat) (nativeLibPath : List Char) :
    Except install_status_t (List Char) :=
  let sizeofLocalTmpFileName := addW w (addW w nativeLibPath.length TMP_FILE_PATTERN_LEN) 2
  let r := strlcpy [] 0 nativeLibPath sizeofLocalTmpFileName
  if r.2 ≠ nativeLibPath.length then .error INSTALL_FAILED_INTERNAL_ERROR
  else
    let r := strlcpy r.1 nativeLibPath.length TMP_FILE_PATTERN
      (subW w TMP_FILE_PATTERN_LEN nativeLibPath.length)
    if r.2 ≠ TMP_FILE_PATTERN_LEN then .error INSTALL_FAILED_INTERNAL_ERROR
    else .ok r.1

/-- The mode 0755 set on the extracted file. -/
def mode755 : Nat := 493

/-- The function `copyFileIfChanged` for the destination root `nativeLibPath`: the
status returned and the filesystem afterwards. -/
def copyFileIfChanged (w : Nat) (sys : Sys) (nativeLibPath : List Char) (fs : FileSystem)
    (_zipFile : ZipFileRO) (zipEntry : Option ZipEntry) (fileName : List Char) :
    install_status_t × FileSystem :=
  match zipEntry with
  | none => (INSTALL_FAILED_INVALID_APK, fs)
  | some entry =>
  match entry.info with
  | none => (INSTALL_FAILED_INVALID_APK, fs)
  | some info =>
    let uncompLen := info.uncompLen
    let crc := info.crc32
    let modTime := sys.zipTime info.modWhen
    match buildLocalFileName w nativeLibPath fileName with
    | .error status => (status, fs)
    | .ok localFileName =>
      let d := isFileDifferent sys fs localFileName uncompLen modTime crc
      let st := d.2
      if !d.1 then (INSTALL_SUCCEEDED, fs)
      else
        match buildLocalTmpFileName w nativeLibPath with
        | .error status => (status, fs)
        | .ok template =>
          let localFileName := storeByte localFileName nativeLibPath.length '/'
          match mkstemp sys fs template with
          | none => (INSTALL_FAILED_CONTAINER_ERROR, fs)
          | some (localTmpFileName, fs) =>
            let fs := writeFile sys fs localTmpFileName entry.data
            if !entry.uncompressOk then
              (INSTALL_FAILED_CONTAINER_ERROR, unlink fs localTmpFileName)
            else
              let st_atime := match st with
                | some i => i.atime
                | none => sys.staleAtime
              if !sys.utimesOk then
                (INSTALL_FAILED_CONTAINER_ERROR, unlink fs localTmpFileName)
              else
                let fs := utimes fs localTmpFileName st_atime modTime
                if !sys.chmodOk then
                  (INSTALL_FAILED_CONTAINER_ERROR, unlink fs localTmpFileName)
                else
                  let fs := chmod fs localTmpFileName mode755
                  if !sys.renameOk then
                    (INSTALL_FAILED_CONTAINER_ERROR, unlink fs localTmpFileName)
                  else
                    (INSTALL_SUCCEEDED, rename fs localTmpFileName localFileName)

/-- The function `com_android_internal_content_NativeLibraryHelper_copyNativeBinaries`. -/
def copyNativeBinaries (w : Nat) (sys : Sys) (host : Host) (fs : FileSystem)
    (apkHandle : Option ZipFileRO) (javaNativeLibPath : List Char)
    (javaCpuAbi : Option (List Char)) : install_status_t × FileSystem :=
  iterateOverNativeFiles w host apkHandle javaCpuAbi
    (copyFileIfChanged w sys javaNativeLibPath) fs

/-- The function `com_android_internal_content_NativeLibraryHelper_sumNativeBinaries`:
the value of `totalSize` it returns. -/
def sumNativeBinaries (w : Nat) (host : Host) (apkHandle : Option ZipFileRO)
    (javaCpuAbi : Option (List Char)) : Nat :=
  (iterateOverNativeFiles w host apkHandle javaCpuAbi (sumFiles w) 0).2

/-! ## hasRenderscriptBitcode -/

def RS_BITCODE_SUFFIX : List Char := ".bc".toList
def RS_BITCODE_SUFFIX_LEN : Nat := 3

/-- The codes of `bitcode_scan_result_t`. -/
abbrev bitcode_scan_result_t := Int

def APK_SCAN_ERROR : bitcode_scan_result_t := -1
def NO_BITCODE_PRESENT : bitcode_scan_result_t := 0
def BITCODE_PRESENT : bitcode_scan_result_t := 1

/-- The `while ((next = zipFile->nextEntry(cookie)) != NULL)` loop of
`hasRenderscriptBitcode` over the entries not visited yet. For a name shorter than
three bytes the source reads before the start of the buffer; the model compares the
start of the name instead. -/
def hasRenderscriptBitcodeWhile : List ZipEntry → bitcode_scan_result_t
  | [] => NO_BITCODE_PRESENT
  | next :: cookie =>
    match getEntryFileName next PATH_MAX with
    | none => hasRenderscriptBitcodeWhile cookie
    | some fileName =>
      let fileNameLen := fileName.length
      let lastSlash := strrchr fileName '/'
      let baseName := match lastSlash with
        | none => fileName
        | some _ => fileName.drop 1
      if strncmp (fileName.drop (fileNameLen - RS_BITCODE_SUFFIX_LEN)) RS_BITCODE_SUFFIX
            RS_BITCODE_SUFFIX_LEN = 0
          && isFilenameSafe baseName then
        BITCODE_PRESENT
      else hasRenderscriptBitcodeWhile cookie

/-- The function `com_android_internal_content_NativeLibraryHelper_hasRenderscriptBitcode`,
for a non-null archive handle. -/
def hasRenderscriptBitcode (host : Host) (zipFile : ZipFileRO) : bitcode_scan_result_t :=
  let filtered : Option bitcode_scan_result_t :=
    match host.filter zipFile with
    | none => none
    | some filter =>
      let ret := filter.HasRenderScriptFunc
      if 1 = ret then some BITCODE_PRESENT
      else if 0 = ret then some NO_BITCODE_PRESENT
      else none
  match filtered with
  | some result => result
  | none =>
    if !zipFile.startIteration then APK_SCAN_ERROR
    else hasRenderscriptBitcodeWhile zipFile.entries

/-! ## Notions used to state the properties -/

/-- The characters the specification lists as allowed in a file name. -/
def safeAlphabet : List Char :=
  "ABCDEFGHIJKLMNOPQRSTUVWXYZabcdefghijklmnopqrstuvwxyz0123456789+,-./=_".toList

/-- An archive entry with the given name, no contents, and a reader that answers every
question about it. -/
def entryNamed (name : String) : ZipEntry :=
  ⟨some name.toList, some ⟨0, 0, 0⟩, [], true⟩

/-- A process in which neither optional library is bound. -/
def unboundHost : Host := ⟨none, none⟩

/-- The entries that successive calls of `next` return, in archive order, each with
the name and the boundary the iterator holds after the call (see `nextLoop_spec`). -/
def acceptedEntries : List ZipEntry → List (ZipEntry × List Char × Nat)
  | [] => []
  | e :: cookie =>
    match getEntryFileName e PATH_MAX with
    | none => acceptedEntries cookie
    | some name =>
      match acceptEntry name with
      | none => acceptedEntries cookie
      | some lastSlash => (e, name, lastSlash) :: acceptedEntries cookie

/-- The ABI label of an accepted name: the slice between the prefix `lib/` and the
boundary. A name whose boundary is the slash of `lib/` itself has no label. -/
def abiLabel (fileName : List Char) (lastSlash : Nat) : Option (List Char) :=
  if APK_LIB_LEN ≤ lastSlash then
    some ((fileName.drop APK_LIB_LEN).take (lastSlash - APK_LIB_LEN))
  else none

/-- The test the source applies to a label `abi` and a name with region size
`abiSize`: `abi->size() == abiSize && !strncmp(abiOffset, abi->c_str(), abiSize)`. -/
def labelTest (fileName : List Char) (abiSize : Nat) (abi : List Char) : Bool :=
  abi.length = abiSize && strncmp (fileName.drop APK_LIB_LEN) abi abiSize = 0

/-- The offset of the first element of a list that passes a test. -/
def firstIdx {α : Type} (t : α → Bool) : List α → Option Nat
  | [] => none
  | a :: l => if t a then some 0 else (firstIdx t l).map (fun j => j + 1)

/-- Position `i` of the preference list holds the ABI label of an accepted entry of the
archive. -/
def MatchesAt (zipFile : ZipFileRO) (supportedAbis : List (List Char)) (i : Nat) : Prop :=
  ∃ abi, supportedAbis[i]? = some abi ∧
    ∃ x ∈ acceptedEntries zipFile.entries, abiLabel x.2.1 x.2.2 = some abi

/-- One turn of the `while` loop of `findSupportedAbi`, on the accepted entry `x`. -/
def scanStep (w : Nat) (supportedAbis : List (List Char)) (status : Int)
    (x : ZipEntry × List Char × Nat) : Int :=
  findSupportedAbiFor x.2.1 (subW w x.2.2 APK_LIB_LEN) supportedAbis 0
    (if status = NO_NATIVE_LIBRARIES then INSTALL_FAILED_NO_MATCHING_ABIS else status)

/-- The first position of the preference list whose label passes the source's test on
the accepted entry `x`. -/
def firstLabel (w : Nat) (supportedAbis : List (List Char))
    (x : ZipEntry × List Char × Nat) : Option Nat :=
  firstIdx (labelTest x.2.1 (subW w x.2.2 APK_LIB_LEN)) supportedAbis

/-- The loop invariant of the scan of `findSupportedAbi`: after the accepted entries
`seen`, the status is `NO_NATIVE_LIBRARIES` when there were none, otherwise
`INSTALL_FAILED_NO_MATCHING_ABIS` when none of them passed the test at any position,
otherwise the least position at which one of them did. -/
def ScanInv (w : Nat) (supportedAbis : List (List Char))
    (seen : List (ZipEntry × List Char × Nat)) (status : Int) : Prop :=
  (seen = [] ∧ status = NO_NATIVE_LIBRARIES) ∨
  (seen ≠ [] ∧
    ((status = INSTALL_FAILED_NO_MATCHING_ABIS ∧
        ∀ x ∈ seen, firstLabel w supportedAbis x = none) ∨
      ∃ n : Nat, status = (n : Int) ∧ (∃ x ∈ seen, firstLabel w supportedAbis x = some n) ∧
        ∀ x ∈ seen, ∀ m, firstLabel w supportedAbis x = some m → n ≤ m))

/-- An archive holding one library for `armeabi-v7a` and a resource. -/
def armArchive : ZipFileRO :=
  ⟨[entryNamed "res/layout/main.xml", entryNamed "lib/armeabi-v7a/libx.so"], true⟩

/-- The preference list `arm64-v8a`, `armeabi-v7a`. -/
def armPreferences : List (List Char) :=
  ["arm64-v8a".toList, "armeabi-v7a".toList]

/-- The accepted entries whose ABI label is `cpuAbi`, in archive order. -/
def matchingEntries (entries : List ZipEntry) (cpuAbi : List Char) :
    List (ZipEntry × List Char × Nat) :=
  (acceptedEntries entries).filter (fun x => abiLabel x.2.1 x.2.2 = some cpuAbi)

/-- The callback run on a list of entries in order, each time with the text after the
boundary, up to and including the first call whose status is not `INSTALL_SUCCEEDED`;
that status is the result, or `INSTALL_SUCCEEDED` when every call succeeded. -/
def callUntilFailure {σ : Type} (zipFile : ZipFileRO)
    (callFunc : σ → ZipFileRO → Option ZipEntry → List Char → install_status_t × σ) :
    List (ZipEntry × List Char × Nat) → σ → install_status_t × σ
  | [], callArg => (INSTALL_SUCCEEDED, callArg)
  | x :: rest, callArg =>
    let r := callFunc callArg zipFile (some x.1) (x.2.1.drop (x.2.2 + 1))
    if r.1 ≠ INSTALL_SUCCEEDED then (r.1, r.2)
    else callUntilFailure zipFile callFunc rest r.2

/-- A call of the callback, as recorded: the entry, the file name, the status. -/
abbrev CallRecord := Option ZipEntry × List Char × install_status_t

/-- The callback `callFunc` made to record each of its invocations, in order, next to
its own argument. -/
def logCalls {σ : Type}
    (callFunc : σ → ZipFileRO → Option ZipEntry → List Char → install_status_t × σ) :
    σ × List CallRecord → ZipFileRO → Option ZipEntry → List Char →
      install_status_t × (σ × List CallRecord) :=
  fun s zipFile zipEntry fileName =>
    let r := callFunc s.1 zipFile zipEntry fileName
    (r.1, (r.2, s.2 ++ [(zipEntry, fileName, r.1)]))

/-- An archive with three libraries under `x86`, the second of which has unreadable
metadata, and one under `arm`. -/
def x86Archive : ZipFileRO :=
  ⟨[⟨some "lib/x86/liba.so".toList, some ⟨100, 0, 0⟩, [], true⟩,
    ⟨some "lib/arm/libb.so".toList, some ⟨7, 0, 0⟩, [], true⟩,
    ⟨some "lib/x86/libc.so".toList, none, [], true⟩,
    ⟨some "lib/x86/libd.so".toList, some ⟨250, 0, 0⟩, [], true⟩], true⟩

/-- The calls expected on `x86Archive` for the label `x86` and the callback
`sumFiles`. -/
def x86Calls : List CallRecord :=
  [(some ⟨some "lib/x86/liba.so".toList, some ⟨100, 0, 0⟩, [], true⟩,
      "liba.so".toList, INSTALL_SUCCEEDED),
    (some ⟨some "lib/x86/libc.so".toList, none, [], true⟩,
      "libc.so".toList, INSTALL_FAILED_INVALID_APK)]

/-- One byte folded into a CRC-32 register, bit by bit (reflected polynomial
`0xEDB88320`), as zlib's table does. -/
def crc32Byte (c b : Nat) : Nat :=
  let step := fun (x : Nat) => if x % 2 = 1 then (x >>> 1) ^^^ 3988292384 else x >>> 1
  step (step (step (step (step (step (step (step (c ^^^ (b % 256)))))))))

/-- The running checksum `crc32(crc, buf, len)` of zlib, used as the example checksum. -/
def zlibCrc32 (crc : Nat) (buf : List Nat) : Nat :=
  (buf.foldl crc32Byte (crc ^^^ 4294967295)) ^^^ 4294967295

/-- An example of the collaborators: every call succeeds, time stamps are read as
they are, and `mkstemp` settles on `abcdef`. -/
def exampleSys : Sys :=
  ⟨zlibCrc32, fun t => (t : Int), 1000, some "abcdef".toList, true, true, true, 0⟩

/-- An example entry `lib/x86/libfoo.so` whose contents are the nine bytes
`123456789`, with the matching size and checksum. -/
def fooEntry : ZipEntry :=
  ⟨some "lib/x86/libfoo.so".toList, some ⟨9, 500, 3421780262⟩,
    [49, 50, 51, 52, 53, 54, 55, 56, 57], true⟩

/-- A filesystem holding `/data/app-lib/x/libfoo.so`, already extracted from
`fooEntry`. -/
def extractedFs : FileSystem :=
  fun p =>
    if p = "/data/app-lib/x/libfoo.so".toList then
      some ⟨true, [49, 50, 51, 52, 53, 54, 55, 56, 57], 500, 400, 493, true⟩
    else none

/-- An example entry whose decompression fails after three bytes were written. -/
def brokenEntry : ZipEntry :=
  ⟨some "lib/x86/libfoo.so".toList, some ⟨9, 700, 1⟩, [49, 50, 51], false⟩


/-- The uncompressed size `getEntryInfo` reports for an entry, `0` when it reports
nothing. -/
def uncompLenOf (x : ZipEntry × List Char × Nat) : Nat :=
  match x.1.info with
  | some info => info.uncompLen
  | none => 0

/-- An archive with two libraries under `x86`, of 100 and 250 bytes, and one under
`arm`, of 7 bytes. -/
def sizedArchive : ZipFileRO :=
  ⟨[⟨some "lib/x86/liba.so".toList, some ⟨100, 0, 0⟩, [], true⟩,
    ⟨some "lib/arm/libb.so".toList, some ⟨7, 0, 0⟩, [], true⟩,
    ⟨some "lib/x86/libc.so".toList, some ⟨250, 0, 0⟩, [], true⟩], true⟩

/-- A filesystem without any file. -/
def emptyFs : FileSystem := fun _ => none

/-- The collaborators of `exampleSys` at a later time, when `mkstemp`, `utimes`, `chmod`
and `rename` would all fail. -/
def laterSys : Sys :=
  ⟨zlibCrc32, fun t => (t : Int), 2000, none, false, false, false, 0⟩

/-- What the accelerator reports for an archive in `findSupportedAbi`: `some status`
when the library is bound, has a filter object for the archive and `FilterLibraryFunc`
returns `0`, the status being the one the callbacks left; `none` when the accelerator
is unavailable or declines the archive. -/
def acceleratorVerdict (w : Nat) (apkScanLib : Option (ZipFileRO → Option PFilterObject))
    (zipFile : ZipFileRO) (supportedAbis : List (List Char)) : Option Int :=
  match Host.filter ⟨apkScanLib, none⟩ zipFile with
  | none => none
  | some filter =>
    let r := filter.FilterLibraryFunc LibFileAbiDealer (dealLibAbiFile w)
      ⟨NO_NATIVE_LIBRARIES, supportedAbis.length, supportedAbis⟩
    if 0 = r.1 then some r.2.status else none

/-- The status with which the default scan of `findSupportedAbi` ends, `none` when the
iteration cannot start. -/
def defaultScan (w : Nat) (zipFile : ZipFileRO) (supportedAbis : List (List Char)) :
    Option Int :=
  match NativeLibrariesIterator.create zipFile with
  | none => none
  | some it =>
    some (findSupportedAbiWhile w supportedAbis (it.mCookie.length + 1) it NO_NATIVE_LIBRARIES)

/-- An archive whose only library is for `mips`. -/
def mipsArchive : ZipFileRO :=
  ⟨[entryNamed "lib/mips/libx.so"], true⟩

/-- An asset classifier that answers index 0 for every archive. -/
def assetsSayZero : ZipFileRO → List (List Char) → Nat → Int :=
  fun _ _ _ => 0

/-- An asset classifier that answers `INSTALL_FAILED_NO_MATCHING_ABIS` for every
archive. -/
def assetsSayNoMatch : ZipFileRO → List (List Char) → Nat → Int :=
  fun _ _ _ => INSTALL_FAILED_NO_MATCHING_ABIS

/-- A library name of 4096 bytes under `lib/x86/`: `lib/x86/lib`, 4082 times `a`, and
`.so`. -/
def oversizedName : List Char :=
  "lib/x86/lib".toList ++ (List.replicate 4082 'a' ++ ".so".toList)

/-- The base name of `oversizedName`. -/
def oversizedBase : List Char :=
  "lib".toList ++ (List.replicate 4082 'a' ++ ".so".toList)

/-! ## Properties of the validator -/

theorem isSafeChar_of_mem_safeAlphabet : ∀ c ∈ safeAlphabet, isSafeChar c = true := by
  decide

theorem mem_safeAlphabet_of_toNat_range (c : Char) (lo hi : Nat) (h1 : lo ≤ c.toNat)
    (h2 : c.toNat ≤ hi) (hall : ∀ n, lo ≤ n → n ≤ hi → Char.ofNat n ∈ safeAlphabet) :
    c ∈ safeAlphabet := by
  have h := hall c.toNat h1 h2
  rwa [Char.ofNat_toNat] at h

theorem mem_safeAlphabet_of_isSafeChar (c : Char) (h : isSafeChar c = true) :
    c ∈ safeAlphabet := by
  unfold isSafeChar at h
  simp only [Bool.or_eq_true, Bool.and_eq_true, decide_eq_true_eq, beq_iff_eq] at h
  rcases h with ((((((((⟨h1, h2⟩ | ⟨h1, h2⟩) | ⟨h1, h2⟩) | h) | h) | h) | h) | h) | h) | h
  · refine mem_safeAlphabet_of_toNat_range c 65 90 h1 h2 ?_
    intro n hn1 hn2
    interval_cases n <;> decide
  · refine mem_safeAlphabet_of_toNat_range c 97 122 h1 h2 ?_
    intro n hn1 hn2
    interval_cases n <;> decide
  · refine mem_safeAlphabet_of_toNat_range c 48 57 h1 h2 ?_
    intro n hn1 hn2
    interval_cases n <;> decide
  all_goals (subst h; decide)

theorem isSafeChar_iff (c : Char) : isSafeChar c = true ↔ c ∈ safeAlphabet :=
  ⟨mem_safeAlphabet_of_isSafeChar c, isSafeChar_of_mem_safeAlphabet c⟩

theorem NUL_not_mem_safeAlphabet : NUL ∉ safeAlphabet := by decide

theorem cstr_nil : cstr [] = [] := rfl

theorem cstr_cons (c : Char) (rest : List Char) :
    cstr (c :: rest) = if c = NUL then [] else c :: cstr rest := by
  by_cases h : c = NUL
  · simp [cstr, List.takeWhile_cons, h]
  · have hb : (c != NUL) = true := by simpa using h
    simp [cstr, List.takeWhile_cons, hb, h]

theorem cstr_eq_self {s : List Char} (h : NUL ∉ s) : cstr s = s := by
  induction s with
  | nil => rfl
  | cons c rest ih =>
    simp only [List.mem_cons, not_or] at h
    rw [cstr_cons, if_neg (fun e => h.1 e.symm), ih h.2]

theorem NUL_not_mem_cstr (s : List Char) : NUL ∉ cstr s := by
  induction s with
  | nil => simp [cstr]
  | cons c rest ih =>
    rw [cstr_cons]
    by_cases h : c = NUL
    · simp [h]
    · simp only [if_neg h, List.mem_cons, not_or]
      exact ⟨fun e => h e.symm, ih⟩

theorem isFilenameSafe_iff_cstr (s : List Char) :
    isFilenameSafe s = true ↔ ∀ c ∈ cstr s, c ∈ safeAlphabet := by
  induction s with
  | nil => simp [isFilenameSafe, cstr]
  | cons c rest ih =>
    rw [cstr_cons]
    by_cases h : c = NUL
    · simp [isFilenameSafe, h]
    · by_cases hs : isSafeChar c = true
      · have hm := mem_safeAlphabet_of_isSafeChar c hs
        simp [isFilenameSafe, h, hs, ih, hm]
      · have hm : c ∉ safeAlphabet := fun hm => hs (isSafeChar_of_mem_safeAlphabet c hm)
        simp [isFilenameSafe, h, hs, hm]

/-- C3. For every buffer holding a terminated string, `isFilenameSafe` (a total
function: it returns on every input) answers true exactly when every byte before the
terminator is one of `A-Z a-z 0-9 + , - . / = _`; the empty string is accepted. -/
theorem isFilenameSafe_iff_allowed (s : List Char) :
    (isFilenameSafe s = true ↔ ∀ c ∈ cstr s, c ∈ safeAlphabet) ∧
    isFilenameSafe [] = true :=
  ⟨isFilenameSafe_iff_cstr s, rfl⟩

/-! ## Properties of the string functions -/

theorem strncmp_eq_zero_iff (a b : List Char) (n : Nat) :
    strncmp a b n = 0 ↔ a.take n = b.take n := by
  unfold strncmp
  by_cases h : a.take n = b.take n <;> simp [h]

theorem strncmp_ne_zero_iff (a b : List Char) (n : Nat) :
    strncmp a b n ≠ 0 ↔ a.take n ≠ b.take n := by
  rw [Ne, strncmp_eq_zero_iff]

theorem strrchr_eq_none_iff (s : List Char) (c : Char) : strrchr s c = none ↔ c ∉ s := by
  induction s with
  | nil => simp [strrchr]
  | cons x xs ih =>
    unfold strrchr
    cases h : strrchr xs c with
    | some i =>
      have : c ∈ xs := by
        by_contra hc
        rw [ih.2 hc] at h
        cases h
      simp [this]
    | none =>
      have hc := ih.1 h
      by_cases hx : x = c
      · simp [hx]
      · have hx' : ¬ c = x := fun e => hx e.symm
        simp [hx, hc, hx']

theorem strrchr_eq_some_iff (s : List Char) (c : Char) (k : Nat) :
    strrchr s c = some k ↔ s.take k ++ [c] = s.take (k + 1) ∧ k < s.length ∧ c ∉ s.drop (k + 1) := by
  induction s generalizing k with
  | nil => simp [strrchr]
  | cons x xs ih =>
    unfold strrchr
    cases h : strrchr xs c with
    | some i =>
      have hi := (ih i).1 h
      cases k with
      | zero =>
        simp only [Option.some.injEq, Nat.add_one_ne_zero, false_iff, not_and]
        intro _ _ hmem
        simp only [Nat.zero_add, List.drop_succ_cons, List.drop_zero] at hmem
        exact hmem ((strrchr_eq_none_iff xs c).not.1 (by simp [h]) |> not_not.1)
      | succ k =>
        simp only [Option.some.injEq, Nat.add_right_cancel_iff, List.take_succ_cons,
          List.cons_append, List.cons.injEq, true_and, List.length_cons,
          Nat.add_lt_add_iff_right, List.drop_succ_cons]
        constructor
        · rintro rfl
          exact hi
        · intro hk
          have := (ih k).2 hk
          rw [h] at this
          exact Option.some.inj this
    | none =>
      have hc := (strrchr_eq_none_iff xs c).1 h
      cases k with
      | zero =>
        by_cases hx : x = c
        · simp [hx, hc]
        · have hx' : ¬ c = x := fun e => hx e.symm
          simp [hx, hx']
      | succ k =>
        have hne : ¬ (xs.take k ++ [c] = xs.take (k + 1) ∧ k < xs.length ∧ c ∉ xs.drop (k + 1)) := by
          intro hk
          have := (ih k).2 hk
          rw [h] at this
          cases this
        by_cases hx : x = c
        · simpa [hx] using hne
        · simpa [hx] using hne

theorem strrchr_append_cons (a b : List Char) (c : Char) (h : c ∉ b) :
    strrchr (a ++ c :: b) c = some a.length := by
  rw [strrchr_eq_some_iff]
  refine ⟨?_, by simp, ?_⟩
  · rw [List.take_left, List.take_append_eq_append_take]
    simp
  · have : (a ++ c :: b).drop (a.length + 1) = b := by
      rw [show a ++ c :: b = (a ++ [c]) ++ b by simp]
      rw [List.drop_append_eq_append_drop]
      simp
    rw [this]
    exact h

theorem eq_of_strrchr_eq_some {s : List Char} {c : Char} {k : Nat}
    (h : strrchr s c = some k) : s = s.take k ++ c :: s.drop (k + 1) := by
  have h1 := ((strrchr_eq_some_iff s c k).1 h).1
  calc s = s.take (k + 1) ++ s.drop (k + 1) := (List.take_append_drop _ _).symm
    _ = (s.take k ++ [c]) ++ s.drop (k + 1) := by rw [h1]
    _ = s.take k ++ c :: s.drop (k + 1) := by simp

theorem drop_eq_cons_of_strrchr_eq_some {s : List Char} {c : Char} {k : Nat}
    (h : strrchr s c = some k) : s.drop k = c :: s.drop (k + 1) := by
  have hk := ((strrchr_eq_some_iff s c k).1 h).2.1
  have e := eq_of_strrchr_eq_some h
  have : s.drop k = (s.take k ++ c :: s.drop (k + 1)).drop k := by rw [← e]
  rw [this, List.drop_append_eq_append_drop]
  simp [Nat.min_eq_left (Nat.le_of_lt hk)]

/-- The tests of the loop body of `next`, spelled out: the name begins with `lib/`,
is at least 14 bytes long, `k` is the offset of its last slash, and the text after that
slash begins with `gdbserver`, or the name ends in `.so`, the text from the slash on
begins with `/lib` and the text after the slash passes `isFilenameSafe`. -/
theorem acceptEntry_eq_some_iff (name : List Char) (k : Nat) :
    acceptEntry name = some k ↔
      name.take 4 = APK_LIB ∧ 14 ≤ name.length ∧ strrchr name '/' = some k ∧
      ((name.drop (k + 1)).take 9 = GDBSERVER ∨
        ((name.drop (name.length - 3)).take 3 = LIB_SUFFIX ∧
          (name.drop k).take 4 = LIB_PREFIX ∧
          isFilenameSafe (name.drop (k + 1)) = true)) := by
  have hA : APK_LIB.take 4 = APK_LIB := by decide
  have hG : GDBSERVER.take 9 = GDBSERVER := by decide
  have hS : LIB_SUFFIX.take 3 = LIB_SUFFIX := by decide
  have hP : LIB_PREFIX.take 4 = LIB_PREFIX := by decide
  unfold acceptEntry
  simp only [strncmp_ne_zero_iff, strncmp_eq_zero_iff, APK_LIB_LEN, GDBSERVER_LEN,
    LIB_SUFFIX_LEN, LIB_PREFIX_LEN, hA, hG, hS, hP, minLength]
  by_cases h1 : name.take 4 = APK_LIB
  swap
  · simp [h1]
  by_cases h2 : name.length < 4 + 2 + 4 + 1 + 3
  · have : ¬ 14 ≤ name.length := by omega
    simp [h1, h2, this]
  have h2' : 14 ≤ name.length := by omega
  cases hr : strrchr name '/' with
  | none => simp [h1, h2]
  | some j =>
    by_cases hjk : j = k
    swap
    · have hkj : ¬ k = j := fun e => hjk e.symm
      by_cases h3 : (name.drop (j + 1)).take 9 = GDBSERVER
      · simp [h1, h2, h3, hjk]
      · by_cases h4 : (name.drop (name.length - 3)).take 3 = LIB_SUFFIX
        · by_cases h5 : (name.drop j).take 4 = LIB_PREFIX
          · by_cases h6 : isFilenameSafe (name.drop (j + 1)) = true
            · simp [h1, h2, h3, h4, h5, h6, hjk]
            · simp [h1, h2, h3, h4, h5, h6, hjk]
          · simp [h1, h2, h3, h4, h5, hjk]
        · simp [h1, h2, h3, h4, hjk]
    subst hjk
    by_cases h3 : (name.drop (j + 1)).take 9 = GDBSERVER
    · simp [h1, h2, h2', h3]
    · by_cases h4 : (name.drop (name.length - 3)).take 3 = LIB_SUFFIX
      · by_cases h5 : (name.drop j).take 4 = LIB_PREFIX
        · by_cases h6 : isFilenameSafe (name.drop (j + 1)) = true
          · simp [h1, h2, h2', h3, h4, h5, h6]
          · simp [h1, h2, h2', h3, h4, h5, h6]
        · simp [h1, h2, h2', h3, h4, h5]
      · simp [h1, h2, h2', h3, h4]

/-! ## Properties of size_t arithmetic -/

theorem addW_of_lt {w a b : Nat} (h : a + b < 2 ^ w) : addW w a b = a + b := by
  unfold addW
  exact Nat.mod_eq_of_lt h

theorem subW_of_le {w a b : Nat} (hba : b ≤ a) (ha : a < 2 ^ w) : subW w a b = a - b := by
  unfold subW
  have hb : b < 2 ^ w := lt_of_le_of_lt hba ha
  rw [Nat.mod_eq_of_lt ha, Nat.mod_eq_of_lt hb]
  have : a + (2 ^ w - b) = (a - b) + 2 ^ w := by omega
  rw [this, Nat.add_mod_right]
  exact Nat.mod_eq_of_lt (by omega)

theorem subW_of_lt {w a b : Nat} (hab : a < b) (hb : b < 2 ^ w) :
    subW w a b = 2 ^ w - (b - a) := by
  unfold subW
  have ha : a < 2 ^ w := lt_trans hab hb
  rw [Nat.mod_eq_of_lt ha, Nat.mod_eq_of_lt hb]
  have : a + (2 ^ w - b) = 2 ^ w - (b - a) := by omega
  rw [this]
  exact Nat.mod_eq_of_lt (by omega)

theorem two_pow_ge_of_le {w : Nat} (hw : 32 ≤ w) : 4294967296 ≤ 2 ^ w := by
  calc 4294967296 = 2 ^ 32 := by norm_num
    _ ≤ 2 ^ w := Nat.pow_le_pow_right (by norm_num) hw

/-! ## Properties of the iterator -/

/-- C2. The entry named `lib/x86/gdbserver;rm` is returned by `next` with the boundary at
offset 7, although the text after its last slash is not `gdbserver`, does not begin
with `lib`, does not end in `.so` and fails `isFilenameSafe`: the comparison with
`gdbserver` covers only the first nine bytes and comes before the other tests. -/
theorem next_accepts_unsafe_gdbserver_name :
    NativeLibrariesIterator.next ⟨[entryNamed "lib/x86/gdbserver;rm"], [], 0⟩
      = (some (entryNamed "lib/x86/gdbserver;rm"), ⟨[], "lib/x86/gdbserver;rm".toList, 7⟩) ∧
    strrchr "lib/x86/gdbserver;rm".toList '/' = some 7 ∧
    "lib/x86/gdbserver;rm".toList.drop 8 = "gdbserver;rm".toList ∧
    isFilenameSafe "gdbserver;rm".toList = false ∧
    "gdbserver;rm".toList ≠ GDBSERVER ∧
    "gdbserver;rm".toList.take 3 ≠ "lib".toList ∧
    "gdbserver;rm".toList.drop 9 ≠ LIB_SUFFIX := by
  decide

/-- C4, as stated, fails: the entry named `lib/libfoobar.so`, whose only slash is the
one at offset 3, is returned by `next`, with the boundary recorded at offset 3. -/
theorem next_accepts_entry_without_abi_directory :
    '/' ∉ "lib/libfoobar.so".toList.drop 4 ∧
    strrchr "lib/libfoobar.so".toList '/' = some 3 ∧
    NativeLibrariesIterator.next ⟨[entryNamed "lib/libfoobar.so"], [], 0⟩
      = (some (entryNamed "lib/libfoobar.so"), ⟨[], "lib/libfoobar.so".toList, 3⟩) := by
  decide

theorem nextLoop_cons_of_accept {e : ZipEntry} {name : List Char} {k : Nat}
    (hname : getEntryFileName e PATH_MAX = some name) (hacc : acceptEntry name = some k)
    (cookie : List ZipEntry) (fileName : List Char) (mLastSlash : Nat) :
    nextLoop (e :: cookie) fileName mLastSlash = (some e, ⟨cookie, name, k⟩) := by
  simp [nextLoop, hname, hacc]

/-! ## Properties of the path buffers of copyFileIfChanged -/

theorem buildLocalFileName_eq (w : Nat) (nativeLibPath fileName : List Char)
    (hfit : nativeLibPath.length + fileName.length + 2 < 2 ^ w) :
    buildLocalFileName w nativeLibPath fileName = .ok (nativeLibPath ++ '/' :: fileName) := by
  have hsize : addW w (addW w nativeLibPath.length fileName.length) 2
      = nativeLibPath.length + fileName.length + 2 := by
    rw [addW_of_lt (by omega : nativeLibPath.length + fileName.length < 2 ^ w),
      addW_of_lt hfit]
  have hsub : subW w (subW w (nativeLibPath.length + fileName.length + 2)
      nativeLibPath.length) 1 = fileName.length + 1 := by
    rw [subW_of_le (by omega) hfit, subW_of_le (by omega) (by omega)]
    omega
  have hstore : storeByte nativeLibPath nativeLibPath.length '/' = nativeLibPath ++ ['/'] := by
    simp [storeByte]
  unfold buildLocalFileName
  simp only [hsize, hsub, strlcpy, ne_eq, not_true_eq_false, if_false]
  have h1 : ¬ (nativeLibPath.length + fileName.length + 2 = 0) := by omega
  simp only [h1, if_false, List.take_zero, List.nil_append]
  rw [List.take_of_length_le (by omega : nativeLibPath.length
    ≤ nativeLibPath.length + fileName.length + 2 - 1), hstore]
  simp only [Nat.add_sub_cancel, List.take_of_length_le (Nat.le_refl _), Nat.add_eq_zero,
    one_ne_zero, and_false, if_false, Except.ok.injEq]
  rw [List.take_of_length_le (by simp), List.append_assoc]
  rfl

theorem base_of_acceptEntry {name : List Char} {k : Nat} (hacc : acceptEntry name = some k) :
    name = name.take k ++ '/' :: name.drop (k + 1) ∧ '/' ∉ name.drop (k + 1) ∧
    ((name.drop (k + 1)).take 9 = GDBSERVER ∨ (name.drop (k + 1)).take 3 = "lib".toList) := by
  have h := (acceptEntry_eq_some_iff name k).1 hacc
  obtain ⟨_, _, hr, hcase⟩ := h
  refine ⟨eq_of_strrchr_eq_some hr, ((strrchr_eq_some_iff _ _ _).1 hr).2.2, ?_⟩
  rcases hcase with hg | ⟨_, hp, _⟩
  · exact Or.inl hg
  · right
    rw [drop_eq_cons_of_strrchr_eq_some hr] at hp
    rw [show (4 : Nat) = 3 + 1 by rfl, List.take_succ_cons] at hp
    exact List.tail_eq_of_cons_eq hp

/-- C6. For every destination root and every name accepted by the iterator with
boundary `k`, `copyFileIfChanged`, which receives the text after the boundary as
`fileName`, builds the path root + `/` + base (the local array fits the address
space); the base is the part of the name after its last slash, it is not empty,
holds no slash, and is neither `.` nor `..`. -/
theorem copy_destination_is_child_of_root (w : Nat) (nativeLibPath name : List Char) (k : Nat)
    (hacc : acceptEntry name = some k)
    (hfit : nativeLibPath.length + (name.drop (k + 1)).length + 2 < 2 ^ w) :
    buildLocalFileName w nativeLibPath (name.drop (k + 1))
      = .ok (nativeLibPath ++ '/' :: name.drop (k + 1)) ∧
    strrchr name '/' = some k ∧
    name = name.take k ++ '/' :: name.drop (k + 1) ∧
    '/' ∉ name.drop (k + 1) ∧
    name.drop (k + 1) ≠ [] ∧
    name.drop (k + 1) ≠ ".".toList ∧
    name.drop (k + 1) ≠ "..".toList := by
  obtain ⟨hsplit, hno, hstart⟩ := base_of_acceptEntry hacc
  have hr := ((acceptEntry_eq_some_iff name k).1 hacc).2.2.1
  refine ⟨buildLocalFileName_eq w _ _ hfit, hr, hsplit, hno, ?_, ?_, ?_⟩
  · intro h
    rw [h] at hstart
    revert hstart
    decide
  · intro h
    rw [h] at hstart
    revert hstart
    decide
  · intro h
    rw [h] at hstart
    revert hstart
    decide

/-- C6 at the root `/data/app-lib/x` and the name `lib/x86/libfoo.so`. -/
theorem copy_destination_is_child_of_root_witness :
    acceptEntry "lib/x86/libfoo.so".toList = some 7 ∧
    buildLocalFileName 32 "/data/app-lib/x".toList "libfoo.so".toList
      = .ok "/data/app-lib/x/libfoo.so".toList :=
  ⟨by decide,
    (copy_destination_is_child_of_root 32 "/data/app-lib/x".toList "lib/x86/libfoo.so".toList 7
      (by decide) (by decide)).1⟩

theorem buildLocalTmpFileName_eq (w : Nat) (nativeLibPath : List Char)
    (hfit : nativeLibPath.length + TMP_FILE_PATTERN_LEN + 2 < 2 ^ w) :
    buildLocalTmpFileName w nativeLibPath
      = .ok (if nativeLibPath.length = 11 then nativeLibPath
          else if nativeLibPath.length < 11 then
            nativeLibPath ++ TMP_FILE_PATTERN.take (10 - nativeLibPath.length)
          else nativeLibPath ++ TMP_FILE_PATTERN) := by
  have hT : TMP_FILE_PATTERN_LEN = 11 := rfl
  have hTl : TMP_FILE_PATTERN.length = 11 := rfl
  rw [hT] at hfit
  have hsize : addW w (addW w nativeLibPath.length 11) 2
      = nativeLibPath.length + 11 + 2 := by
    rw [addW_of_lt (by omega : nativeLibPath.length + 11 < 2 ^ w), addW_of_lt hfit]
  unfold buildLocalTmpFileName
  simp only [hT, hsize, strlcpy, ne_eq, not_true_eq_false, if_false, hTl]
  have h1 : ¬ (nativeLibPath.length + 11 + 2 = 0) := by omega
  simp only [h1, if_false, List.take_zero, List.nil_append]
  rw [List.take_of_length_le (by omega : nativeLibPath.length
    ≤ nativeLibPath.length + 11 + 2 - 1)]
  rw [List.take_of_length_le (Nat.le_refl _)]
  by_cases h11 : nativeLibPath.length = 11
  · have : subW w 11 nativeLibPath.length = 0 := by
      rw [h11, subW_of_le (Nat.le_refl _) (by omega)]
    rw [h11] at this
    simp only [h11, this, if_true]
  · by_cases hlt : nativeLibPath.length < 11
    · have hs : subW w 11 nativeLibPath.length = 11 - nativeLibPath.length :=
        subW_of_le (by omega) (by omega)
      have hne : ¬ (11 - nativeLibPath.length = 0) := by omega
      have he : 11 - nativeLibPath.length - 1 = 10 - nativeLibPath.length := by omega
      simp only [hs, hne, if_false, h11, hlt, if_true, he]
    · have hs : subW w 11 nativeLibPath.length = 2 ^ w - (nativeLibPath.length - 11) :=
        subW_of_lt (by omega) (by omega)
      have hne : ¬ (2 ^ w - (nativeLibPath.length - 11) = 0) := by omega
      simp only [hs, hne, if_false, h11, hlt]
      rw [List.take_of_length_le (by rw [hTl]; omega)]

/-- C10. With the nine-byte root `/data/lib` the size handed to `strlcpy` is
`11 - 9 = 2`, one byte of the pattern is copied, and the template handed to `mkstemp`
is `/data/lib/` instead of `/data/lib/tmp.XXXXXX`; `mkstemp` refuses it. With the empty
root the template is `/tmp.XXXXX`, one `X` short, and with an eleven-byte root the size
is `0` and the template is the root alone. The return value of `strlcpy` is the length
of the pattern in every case, so the check after it never fires. -/
theorem short_root_truncates_tmp_pattern :
    subW 64 TMP_FILE_PATTERN_LEN "/data/lib".toList.length = 2 ∧
    buildLocalTmpFileName 64 "/data/lib".toList = .ok "/data/lib/".toList ∧
    buildLocalTmpFileName 32 "/data/lib".toList = .ok "/data/lib/".toList ∧
    "/data/lib/".toList ≠ "/data/lib".toList ++ TMP_FILE_PATTERN ∧
    (∀ (sys : Sys) (fs : FileSystem), mkstemp sys fs "/data/lib/".toList = none) ∧
    buildLocalTmpFileName 64 [] = .ok "/tmp.XXXXX".toList ∧
    buildLocalTmpFileName 64 "/system/lib".toList = .ok "/system/lib".toList := by
  refine ⟨by decide, rfl, rfl, by decide, ?_, rfl, rfl⟩
  intro sys fs
  have h : ¬ ("/data/lib/".toList.drop ("/data/lib/".toList.length - 6) = "XXXXXX".toList) := by
    decide
  simp only [mkstemp, h, if_false]

/-- For a root of at least twelve bytes the size handed to `strlcpy` wraps to a huge
value and the whole pattern is copied. -/
theorem buildLocalTmpFileName_of_long_root (w : Nat) (nativeLibPath : List Char)
    (hfit : nativeLibPath.length + TMP_FILE_PATTERN_LEN + 2 < 2 ^ w)
    (hlong : 12 ≤ nativeLibPath.length) :
    buildLocalTmpFileName w nativeLibPath = .ok (nativeLibPath ++ TMP_FILE_PATTERN) := by
  rw [buildLocalTmpFileName_eq w nativeLibPath hfit]
  have h1 : ¬ nativeLibPath.length = 11 := by omega
  have h2 : ¬ nativeLibPath.length < 11 := by omega
  simp only [h1, h2, if_false]

/-! ## The iterator and the list of accepted entries -/

theorem length_cstr_le (s : List Char) : (cstr s).length ≤ s.length := by
  induction s with
  | nil => simp [cstr]
  | cons c rest ih =>
    rw [cstr_cons]
    by_cases h : c = NUL
    · simp [h]
    · simp only [if_neg h, List.length_cons]
      omega

theorem length_lt_of_getEntryFileName {e : ZipEntry} {bufLen : Nat} {name : List Char}
    (h : getEntryFileName e bufLen = some name) : name.length < bufLen := by
  unfold getEntryFileName at h
  cases hn : e.name with
  | none => simp [hn] at h
  | some n =>
    simp only [hn] at h
    by_cases hb : n.length + 1 ≤ bufLen
    · simp only [hb, if_true, Option.some.injEq] at h
      have := length_cstr_le n
      rw [h] at this
      omega
    · simp [hb] at h

/-- What `next` does, in terms of the list of accepted entries: it returns the null
entry exactly when none is left; otherwise it returns the first one, holds its name
and boundary afterwards, and its cursor has moved past it. -/
theorem nextLoop_spec (cookie : List ZipEntry) (fileName : List Char) (mLastSlash : Nat) :
    (acceptedEntries cookie = [] ∧ (nextLoop cookie fileName mLastSlash).1 = none) ∨
    (∃ e name k cookie', nextLoop cookie fileName mLastSlash = (some e, ⟨cookie', name, k⟩) ∧
      acceptedEntries cookie = (e, name, k) :: acceptedEntries cookie' ∧
      cookie'.length < cookie.length) := by
  induction cookie generalizing fileName with
  | nil => left; exact ⟨rfl, rfl⟩
  | cons e rest ih =>
    cases hn : getEntryFileName e PATH_MAX with
    | none =>
      simp only [nextLoop, acceptedEntries, hn]
      rcases ih fileName with h | ⟨e', name, k, c', h1, h2, h3⟩
      · left; exact h
      · right; exact ⟨e', name, k, c', h1, h2, by simp only [List.length_cons]; omega⟩
    | some name =>
      cases ha : acceptEntry name with
      | none =>
        simp only [nextLoop, acceptedEntries, hn, ha]
        rcases ih name with h | ⟨e', name', k, c', h1, h2, h3⟩
        · left; exact h
        · right; exact ⟨e', name', k, c', h1, h2, by simp only [List.length_cons]; omega⟩
      | some k =>
        right
        refine ⟨e, name, k, rest, ?_, ?_, by simp⟩
        · simp only [nextLoop, hn, ha]
        · simp only [acceptedEntries, hn, ha]

theorem acceptedEntries_spec {cookie : List ZipEntry} {x : ZipEntry × List Char × Nat}
    (hx : x ∈ acceptedEntries cookie) :
    x.1 ∈ cookie ∧ getEntryFileName x.1 PATH_MAX = some x.2.1 ∧
    acceptEntry x.2.1 = some x.2.2 := by
  induction cookie with
  | nil => simp [acceptedEntries] at hx
  | cons e rest ih =>
    cases hn : getEntryFileName e PATH_MAX with
    | none =>
      simp only [acceptedEntries, hn] at hx
      have := ih hx
      exact ⟨List.mem_cons_of_mem _ this.1, this.2⟩
    | some name =>
      cases ha : acceptEntry name with
      | none =>
        simp only [acceptedEntries, hn, ha] at hx
        have := ih hx
        exact ⟨List.mem_cons_of_mem _ this.1, this.2⟩
      | some k =>
        simp only [acceptedEntries, hn, ha, List.mem_cons] at hx
        rcases hx with rfl | hx
        · exact ⟨List.mem_cons_self _ _, hn, ha⟩
        · have := ih hx
          exact ⟨List.mem_cons_of_mem _ this.1, this.2⟩

/-- The source's label test agrees with equality to the ABI label, for a name held
in the iterator's buffer and its recorded boundary. -/
theorem labelTest_iff (w : Nat) (hw : 32 ≤ w) (name : List Char) (k : Nat)
    (hk : k < name.length) (hlen : name.length < PATH_MAX) (abi : List Char) :
    labelTest name (subW w k APK_LIB_LEN) abi = true ↔ abiLabel name k = some abi := by
  have h2 := two_pow_ge_of_le hw
  have hP : PATH_MAX = 4096 := rfl
  have hA : APK_LIB_LEN = 4 := rfl
  unfold labelTest abiLabel
  rw [hA]
  simp only [Bool.and_eq_true, decide_eq_true_eq, strncmp_eq_zero_iff]
  by_cases h4 : 4 ≤ k
  · have hs : subW w k 4 = k - 4 := subW_of_le h4 (by omega)
    simp only [hs, h4, if_true, Option.some.injEq]
    constructor
    · rintro ⟨hl, ht⟩
      rw [ht, ← hl, List.take_of_length_le (Nat.le_refl _)]
    · intro h
      have hl : abi.length = k - 4 := by
        rw [← h, List.length_take, List.length_drop]
        omega
      refine ⟨hl, ?_⟩
      rw [← hl, List.take_of_length_le (Nat.le_refl abi.length), hl, h]
  · have hs : subW w k 4 = 2 ^ w - (4 - k) := subW_of_lt (by omega) (by omega)
    simp only [hs, h4, if_false]
    constructor
    · rintro ⟨hl, ht⟩
      exfalso
      have h1 : ((name.drop 4).take (2 ^ w - (4 - k))).length
          = (abi.take (2 ^ w - (4 - k))).length := by rw [ht]
      rw [List.length_take, List.length_take, List.length_drop, hl] at h1
      have : min (2 ^ w - (4 - k)) (name.length - 4) = name.length - 4 := by
        apply Nat.min_eq_right
        omega
      rw [this, Nat.min_self] at h1
      omega
    · intro h; cases h

/-! ## ABI resolution -/

theorem firstIdx_eq_none_iff {α : Type} (t : α → Bool) (l : List α) :
    firstIdx t l = none ↔ ∀ a ∈ l, t a = false := by
  induction l with
  | nil => simp [firstIdx]
  | cons a l ih =>
    unfold firstIdx
    by_cases h : t a = true
    · simp [h]
    · have h' : t a = false := by simpa using h
      simp [h', ih]

theorem firstIdx_eq_some {α : Type} (t : α → Bool) (l : List α) (j : Nat)
    (h : firstIdx t l = some j) :
    (∃ a, l[j]? = some a ∧ t a = true) ∧ ∀ i a, i < j → l[i]? = some a → t a = false := by
  induction l generalizing j with
  | nil => simp [firstIdx] at h
  | cons b l ih =>
    unfold firstIdx at h
    by_cases hb : t b = true
    · simp only [hb, if_true, Option.some.injEq] at h
      subst h
      exact ⟨⟨b, by simp, hb⟩, fun i a hi => absurd hi (Nat.not_lt_zero i)⟩
    · have hb' : t b = false := by simpa using hb
      simp only [hb', Bool.false_eq_true, if_false, Option.map_eq_some'] at h
      obtain ⟨j', hj', rfl⟩ := h
      obtain ⟨⟨a, ha, hta⟩, hmin⟩ := ih j' hj'
      refine ⟨⟨a, by simpa using ha, hta⟩, ?_⟩
      intro i a' hi hget
      cases i with
      | zero =>
        simp only [List.getElem?_cons_zero, Option.some.injEq] at hget
        rw [← hget]; exact hb'
      | succ i =>
        simp only [List.getElem?_cons_succ] at hget
        exact hmin i a' (by omega) hget

theorem firstIdx_le_of_test {α : Type} (t : α → Bool) (l : List α) (i : Nat) (a : α)
    (hget : l[i]? = some a) (ht : t a = true) : ∃ j, firstIdx t l = some j ∧ j ≤ i := by
  cases h : firstIdx t l with
  | none =>
    have hm : a ∈ l := List.getElem?_mem hget
    have := (firstIdx_eq_none_iff t l).1 h a hm
    rw [ht] at this
    cases this
  | some j =>
    refine ⟨j, rfl, ?_⟩
    by_contra hlt
    have := (firstIdx_eq_some t l j h).2 i a (by omega) hget
    rw [ht] at this
    cases this

/-- The `for` loop over the preference list: the first label passing the test, at
offset `j` from the starting index `i`, replaces the status when the status is
negative or larger; later labels change nothing. -/
theorem findSupportedAbiFor_eq (fileName : List Char) (abiSize : Nat)
    (abis : List (List Char)) (i : Nat) (status : Int) :
    findSupportedAbiFor fileName abiSize abis i status =
      match firstIdx (labelTest fileName abiSize) abis with
      | none => status
      | some j => if status < 0 ∨ ((i + j : Nat) : Int) < status then ((i + j : Nat) : Int)
          else status := by
  induction abis generalizing i status with
  | nil => simp [findSupportedAbiFor, firstIdx]
  | cons a l ih =>
    unfold findSupportedAbiFor firstIdx
    have ht : (decide (a.length = abiSize)
        && decide (strncmp (fileName.drop APK_LIB_LEN) a abiSize = 0))
        = labelTest fileName abiSize a := rfl
    rw [ht]
    by_cases hta : labelTest fileName abiSize a = true
    · simp only [hta, if_true, Nat.add_zero]
      by_cases hc : status < 0 ∨ (i : Int) < status
      · have hc' : ((decide ((i : Int) < status) && decide (status ≥ 0))
            || decide (status < 0)) = true := by
          simp only [Bool.or_eq_true, Bool.and_eq_true, decide_eq_true_eq]
          rcases hc with h | h
          · exact Or.inr h
          · by_cases h0 : status < 0
            · exact Or.inr h0
            · exact Or.inl ⟨h, by omega⟩
        simp only [hc', if_true, hc]
        rw [ih]
        cases firstIdx (labelTest fileName abiSize) l with
        | none => rfl
        | some j =>
          have : ¬ (((i : Nat) : Int) < 0 ∨ ((i + 1 + j : Nat) : Int) < (i : Int)) := by
            push_cast
            omega
          simp only [this, if_false]
      · have hc' : ((decide ((i : Int) < status) && decide (status ≥ 0))
            || decide (status < 0)) = false := by
          simp only [Bool.or_eq_false_iff, Bool.and_eq_false_iff, decide_eq_false_iff_not]
          push_neg at hc
          exact ⟨Or.inl (by omega), by omega⟩
        simp only [hc', Bool.false_eq_true, if_false, hc]
        rw [ih]
        cases firstIdx (labelTest fileName abiSize) l with
        | none => rfl
        | some j =>
          have : ¬ (status < 0 ∨ ((i + 1 + j : Nat) : Int) < status) := by
            push_neg at hc
            push_cast
            omega
          simp only [this, if_false]
    · have hta' : labelTest fileName abiSize a = false := by simpa using hta
      simp only [hta', Bool.false_eq_true, if_false]
      rw [ih]
      cases firstIdx (labelTest fileName abiSize) l with
      | none => rfl
      | some j =>
        simp only [Option.map_some']
        have : i + 1 + j = i + (j + 1) := by omega
        rw [this]

theorem findSupportedAbiWhile_eq (w : Nat) (abis : List (List Char)) (fuel : Nat) :
    ∀ (it : NativeLibrariesIterator) (status : Int), it.mCookie.length < fuel →
      findSupportedAbiWhile w abis fuel it status
        = (acceptedEntries it.mCookie).foldl (scanStep w abis) status := by
  induction fuel with
  | zero => intro it status h; exact absurd h (Nat.not_lt_zero _)
  | succ fuel ih =>
    intro it status hlt
    unfold findSupportedAbiWhile
    rcases nextLoop_spec it.mCookie it.fileName it.mLastSlash with
      ⟨hnil, hnone⟩ | ⟨e, name, k, cookie', hnext, hacc, hlen⟩
    · have hn : it.next = (none, it.next.2) := by
        unfold NativeLibrariesIterator.next
        exact Prod.ext hnone rfl
      rw [hn, hnil]
      rfl
    · have hn : it.next = (some e, ⟨cookie', name, k⟩) := hnext
      rw [hn, hacc]
      simp only [List.foldl_cons]
      rw [ih ⟨cookie', name, k⟩ _ (by simp only; omega)]
      rfl

theorem scanStep_eq (w : Nat) (abis : List (List Char)) (status : Int)
    (x : ZipEntry × List Char × Nat) :
    scanStep w abis status x =
      match firstLabel w abis x with
      | none => if status = NO_NATIVE_LIBRARIES then INSTALL_FAILED_NO_MATCHING_ABIS else status
      | some j =>
        if (if status = NO_NATIVE_LIBRARIES then INSTALL_FAILED_NO_MATCHING_ABIS else status) < 0
            ∨ (j : Int) < (if status = NO_NATIVE_LIBRARIES then INSTALL_FAILED_NO_MATCHING_ABIS
              else status)
        then (j : Int)
        else (if status = NO_NATIVE_LIBRARIES then INSTALL_FAILED_NO_MATCHING_ABIS else status) := by
  unfold scanStep firstLabel
  rw [findSupportedAbiFor_eq]
  cases firstIdx (labelTest x.2.1 (subW w x.2.2 APK_LIB_LEN)) abis with
  | none => rfl
  | some j => simp only [Nat.zero_add]

theorem scanInv_step (w : Nat) (abis : List (List Char))
    (seen : List (ZipEntry × List Char × Nat)) (status : Int)
    (x : ZipEntry × List Char × Nat) (h : ScanInv w abis seen status) :
    ScanInv w abis (seen ++ [x]) (scanStep w abis status x) := by
  have hN : NO_NATIVE_LIBRARIES = -114 := rfl
  have hM : INSTALL_FAILED_NO_MATCHING_ABIS = -113 := rfl
  right
  refine ⟨by simp, ?_⟩
  rw [scanStep_eq]
  rcases h with ⟨hnil, hs⟩ | ⟨_, ⟨hs, hall⟩ | ⟨n, hs, ⟨y, hy, hfy⟩, hmin⟩⟩
  · subst hnil
    cases hf : firstLabel w abis x with
    | none =>
      left
      simp only [hs, if_true, List.nil_append, List.mem_singleton, forall_eq, hf, and_self]
    | some j =>
      right
      refine ⟨j, ?_, ⟨x, by simp, hf⟩, ?_⟩
      · simp only [hs, if_true, hM]
        rw [if_pos (Or.inl (by norm_num))]
      · intro z hz m hm
        simp only [List.nil_append, List.mem_singleton] at hz
        subst hz
        rw [hf] at hm
        cases hm
        exact Nat.le_refl _
  · have hne : ¬ status = NO_NATIVE_LIBRARIES := by rw [hs, hN, hM]; norm_num
    cases hf : firstLabel w abis x with
    | none =>
      left
      simp only [hne, if_false]
      refine ⟨hs, ?_⟩
      intro z hz
      rcases List.mem_append.1 hz with hz | hz
      · exact hall z hz
      · simp only [List.mem_singleton] at hz
        subst hz; exact hf
    | some j =>
      right
      refine ⟨j, ?_, ⟨x, by simp, hf⟩, ?_⟩
      · simp only [hne, if_false]
        rw [if_pos (Or.inl (by rw [hs, hM]; norm_num))]
      · intro z hz m hm
        rcases List.mem_append.1 hz with hz | hz
        · rw [hall z hz] at hm; cases hm
        · simp only [List.mem_singleton] at hz
          subst hz
          rw [hf] at hm
          cases hm
          exact Nat.le_refl _
  · have hne : ¬ status = NO_NATIVE_LIBRARIES := by rw [hs, hN]; omega
    right
    cases hf : firstLabel w abis x with
    | none =>
      simp only [hne, if_false]
      refine ⟨n, hs, ⟨y, List.mem_append_left _ hy, hfy⟩, ?_⟩
      intro z hz m hm
      rcases List.mem_append.1 hz with hz | hz
      · exact hmin z hz m hm
      · simp only [List.mem_singleton] at hz
        subst hz
        rw [hf] at hm; cases hm
    | some j =>
      simp only [hne, if_false]
      by_cases hjn : j < n
      · refine ⟨j, ?_, ⟨x, by simp, hf⟩, ?_⟩
        · rw [if_pos (Or.inr (by rw [hs]; exact_mod_cast hjn))]
        · intro z hz m hm
          rcases List.mem_append.1 hz with hz | hz
          · have := hmin z hz m hm
            omega
          · simp only [List.mem_singleton] at hz
            subst hz
            rw [hf] at hm
            cases hm
            exact Nat.le_refl _
      · refine ⟨n, ?_, ⟨y, List.mem_append_left _ hy, hfy⟩, ?_⟩
        · rw [if_neg]
          · exact hs
          · rw [hs]
            push_neg
            constructor
            · exact_mod_cast Nat.zero_le n
            · exact_mod_cast Nat.le_of_not_lt hjn
        · intro z hz m hm
          rcases List.mem_append.1 hz with hz | hz
          · exact hmin z hz m hm
          · simp only [List.mem_singleton] at hz
            subst hz
            rw [hf] at hm
            cases hm
            omega

theorem scanInv_foldl (w : Nat) (abis : List (List Char))
    (rest : List (ZipEntry × List Char × Nat)) :
    ∀ (seen : List (ZipEntry × List Char × Nat)) (status : Int),
      ScanInv w abis seen status →
      ScanInv w abis (seen ++ rest) (rest.foldl (scanStep w abis) status) := by
  induction rest with
  | nil => intro seen status h; simpa using h
  | cons x rest ih =>
    intro seen status h
    have := ih (seen ++ [x]) _ (scanInv_step w abis seen status x h)
    simpa using this

theorem findSupportedAbi_unbound_eq (w : Nat) (zipFile : ZipFileRO)
    (hstart : zipFile.startIteration = true) (abis : List (List Char)) :
    findSupportedAbi w unboundHost (some zipFile) abis
      = (acceptedEntries zipFile.entries).foldl (scanStep w abis) NO_NATIVE_LIBRARIES := by
  have hW := findSupportedAbiWhile_eq w abis (zipFile.entries.length + 1)
    ⟨zipFile.entries, [], 0⟩ NO_NATIVE_LIBRARIES (Nat.lt_succ_self _)
  simp only [findSupportedAbi, unboundHost, Host.filter, NativeLibrariesIterator.create, hstart,
    if_true, hW, Bool.not_false, Bool.and_true, ite_self, ne_eq, not_true_eq_false, if_false]

theorem labelTest_iff_of_mem (w : Nat) (hw : 32 ≤ w) {cookie : List ZipEntry}
    {x : ZipEntry × List Char × Nat} (hx : x ∈ acceptedEntries cookie) (abi : List Char) :
    labelTest x.2.1 (subW w x.2.2 APK_LIB_LEN) abi = true ↔ abiLabel x.2.1 x.2.2 = some abi := by
  obtain ⟨_, hname, hacc⟩ := acceptedEntries_spec hx
  have hr := ((acceptEntry_eq_some_iff _ _).1 hacc).2.2.1
  have hk := ((strrchr_eq_some_iff _ _ _).1 hr).2.1
  exact labelTest_iff w hw _ _ hk (length_lt_of_getEntryFileName hname) abi

theorem matchesAt_of_firstLabel (w : Nat) (hw : 32 ≤ w) (zipFile : ZipFileRO)
    (abis : List (List Char)) {x : ZipEntry × List Char × Nat}
    (hx : x ∈ acceptedEntries zipFile.entries) {n : Nat}
    (h : firstLabel w abis x = some n) : MatchesAt zipFile abis n := by
  obtain ⟨⟨abi, hget, ht⟩, _⟩ := firstIdx_eq_some _ _ _ h
  exact ⟨abi, hget, x, hx, (labelTest_iff_of_mem w hw hx abi).1 ht⟩

theorem firstLabel_of_matchesAt (w : Nat) (hw : 32 ≤ w) (zipFile : ZipFileRO)
    (abis : List (List Char)) {i : Nat} (h : MatchesAt zipFile abis i) :
    ∃ x ∈ acceptedEntries zipFile.entries, ∃ j, firstLabel w abis x = some j ∧ j ≤ i := by
  obtain ⟨abi, hget, x, hx, hl⟩ := h
  have ht := (labelTest_iff_of_mem w hw hx abi).2 hl
  exact ⟨x, hx, firstIdx_le_of_test _ _ i abi hget ht⟩

/-- C1. On the default path of `findSupportedAbi` (an archive whose iteration starts,
neither optional library bound), for every archive and every preference list: the
result is `NO_NATIVE_LIBRARIES` when the iterator accepts no entry; it is `i` when `i`
is the least position whose label is the ABI label of an accepted entry; it is
`INSTALL_FAILED_NO_MATCHING_ABIS` when entries are accepted and no position is such;
and an empty preference list yields a negative result. -/
theorem findSupportedAbi_default_path (w : Nat) (hw : 32 ≤ w) (zipFile : ZipFileRO)
    (hstart : zipFile.startIteration = true) (supportedAbis : List (List Char)) :
    (acceptedEntries zipFile.entries = [] →
      findSupportedAbi w unboundHost (some zipFile) supportedAbis = NO_NATIVE_LIBRARIES) ∧
    (∀ i : Nat, MatchesAt zipFile supportedAbis i →
      (∀ j, j < i → ¬ MatchesAt zipFile supportedAbis j) →
      findSupportedAbi w unboundHost (some zipFile) supportedAbis = (i : Int)) ∧
    (acceptedEntries zipFile.entries ≠ [] → (∀ i, ¬ MatchesAt zipFile supportedAbis i) →
      findSupportedAbi w unboundHost (some zipFile) supportedAbis
        = INSTALL_FAILED_NO_MATCHING_ABIS) ∧
    (supportedAbis = [] →
      findSupportedAbi w unboundHost (some zipFile) supportedAbis < 0) := by
  have hinv := scanInv_foldl w supportedAbis (acceptedEntries zipFile.entries) []
    NO_NATIVE_LIBRARIES (Or.inl ⟨rfl, rfl⟩)
  rw [List.nil_append, ← findSupportedAbi_unbound_eq w zipFile hstart] at hinv
  have hN : NO_NATIVE_LIBRARIES = -114 := rfl
  have hM : INSTALL_FAILED_NO_MATCHING_ABIS = -113 := rfl
  have hnoMatch : supportedAbis = [] → ∀ i, ¬ MatchesAt zipFile supportedAbis i := by
    rintro rfl i ⟨abi, hget, _⟩
    simp at hget
  refine ⟨?_, ?_, ?_, ?_⟩
  · intro hnil
    rcases hinv with ⟨_, hs⟩ | ⟨hne, _⟩
    · exact hs
    · exact absurd hnil hne
  · intro i hi hmin
    obtain ⟨x, hx, j, hj, hji⟩ := firstLabel_of_matchesAt w hw zipFile supportedAbis hi
    have hjm := matchesAt_of_firstLabel w hw zipFile supportedAbis hx hj
    have hji' : j = i := by
      by_contra hne
      exact hmin j (by omega) hjm
    subst hji'
    rcases hinv with ⟨hnil, _⟩ | ⟨_, ⟨_, hall⟩ | ⟨n, hs, ⟨y, hy, hfy⟩, hle⟩⟩
    · rw [hnil] at hx; simp at hx
    · rw [hall x hx] at hj; cases hj
    · have hnm := matchesAt_of_firstLabel w hw zipFile supportedAbis hy hfy
      have h1 : n ≤ j := hle x hx j hj
      have h2 : ¬ n < j := fun h => hmin n h hnm
      have : n = j := by omega
      rw [hs, this]
  · intro hne hnone
    rcases hinv with ⟨hnil, _⟩ | ⟨_, ⟨hs, _⟩ | ⟨n, _, ⟨y, hy, hfy⟩, _⟩⟩
    · exact absurd hnil hne
    · exact hs
    · exact absurd (matchesAt_of_firstLabel w hw zipFile supportedAbis hy hfy) (hnone n)
  · intro hnil
    rcases hinv with ⟨_, hs⟩ | ⟨_, ⟨hs, _⟩ | ⟨n, _, ⟨y, hy, hfy⟩, _⟩⟩
    · rw [hs, hN]; norm_num
    · rw [hs, hM]; norm_num
    · exact absurd (matchesAt_of_firstLabel w hw zipFile supportedAbis hy hfy)
        (hnoMatch hnil n)

/-- C1 at an archive with one library under `armeabi-v7a` and the preference list
`arm64-v8a`, `armeabi-v7a`: the result is index 1. -/
theorem findSupportedAbi_default_path_witness :
    32 ≤ 64 ∧ armArchive.startIteration = true ∧
    findSupportedAbi 64 unboundHost (some armArchive) armPreferences = 1 := by
  have hacc : acceptedEntries armArchive.entries
      = [(entryNamed "lib/armeabi-v7a/libx.so", "lib/armeabi-v7a/libx.so".toList, 15)] := by
    decide
  refine ⟨by decide, rfl, ?_⟩
  refine (findSupportedAbi_default_path 64 (by decide) armArchive rfl armPreferences).2.1 1
    ⟨"armeabi-v7a".toList, rfl, _, by rw [hacc]; exact List.mem_singleton.2 rfl, by decide⟩ ?_
  rintro j hj ⟨abi, hget, x, hx, hl⟩
  have hj0 : j = 0 := by omega
  subst hj0
  rw [hacc] at hx
  have hx' := List.mem_singleton.1 hx
  subst hx'
  have habi : abi = "arm64-v8a".toList := by
    have : armPreferences[0]? = some "arm64-v8a".toList := rfl
    rw [this] at hget
    exact (Option.some.inj hget).symm
  subst habi
  revert hl
  decide

/-! ## iterateOverNativeFiles -/

theorem iterateOverNativeFilesWhile_eq {σ : Type} (w : Nat) (hw : 32 ≤ w) (zipFile : ZipFileRO)
    (cpuAbi : List Char)
    (callFunc : σ → ZipFileRO → Option ZipEntry → List Char → install_status_t × σ)
    (fuel : Nat) :
    ∀ (it : NativeLibrariesIterator) (callArg : σ), it.mCookie.length < fuel →
      iterateOverNativeFilesWhile w zipFile cpuAbi callFunc fuel it callArg
        = callUntilFailure zipFile callFunc (matchingEntries it.mCookie cpuAbi) callArg := by
  induction fuel with
  | zero => intro it callArg h; exact absurd h (Nat.not_lt_zero _)
  | succ fuel ih =>
    intro it callArg hlt
    unfold iterateOverNativeFilesWhile matchingEntries
    rcases nextLoop_spec it.mCookie it.fileName it.mLastSlash with
      ⟨hnil, hnone⟩ | ⟨e, name, k, cookie', hnext, hacc, hlen⟩
    · have hn : it.next = (none, it.next.2) := by
        unfold NativeLibrariesIterator.next
        exact Prod.ext hnone rfl
      rw [hn, hnil]
      rfl
    · have hn : it.next = (some e, ⟨cookie', name, k⟩) := hnext
      have hmem : (e, name, k) ∈ acceptedEntries it.mCookie := by
        rw [hacc]; exact List.mem_cons_self _ _
      have htest := labelTest_iff_of_mem w hw hmem cpuAbi
      have hrec := ih ⟨cookie', name, k⟩
      simp only [matchingEntries] at hrec
      rw [hn, hacc]
      simp only [NativeLibrariesIterator.currentEntry, NativeLibrariesIterator.lastSlash]
      have ht : (decide (cpuAbi.length = subW w k APK_LIB_LEN)
          && decide (strncmp (name.drop APK_LIB_LEN) cpuAbi (subW w k APK_LIB_LEN) = 0))
          = labelTest name (subW w k APK_LIB_LEN) cpuAbi := rfl
      rw [ht]
      by_cases hl : abiLabel name k = some cpuAbi
      · have hl' : labelTest name (subW w k APK_LIB_LEN) cpuAbi = true := htest.2 hl
        rw [List.filter_cons_of_pos (by simpa using hl)]
        simp only [hl', if_true, callUntilFailure]
        by_cases hs : (callFunc callArg zipFile (some e) (name.drop (k + 1))).1
            = INSTALL_SUCCEEDED
        · simp only [hs, ne_eq, not_true_eq_false, if_false]
          rw [hrec _ (by show cookie'.length < fuel; omega)]
        · simp only [hs, ne_eq, not_false_eq_true, if_true]
      · have hl' : labelTest name (subW w k APK_LIB_LEN) cpuAbi = false := by
          cases h : labelTest name (subW w k APK_LIB_LEN) cpuAbi with
          | false => rfl
          | true => exact absurd (htest.1 h) hl
        rw [List.filter_cons_of_neg (by simpa using hl)]
        simp only [hl', Bool.false_eq_true, if_false]
        rw [hrec _ (by show cookie'.length < fuel; omega)]

/-- On the default path `iterateOverNativeFiles` is the callback run over the matching
entries until the first failure. -/
theorem iterateOverNativeFiles_unbound_eq {σ : Type} (w : Nat) (hw : 32 ≤ w)
    (zipFile : ZipFileRO) (hstart : zipFile.startIteration = true) (cpuAbi : List Char)
    (callFunc : σ → ZipFileRO → Option ZipEntry → List Char → install_status_t × σ)
    (callArg : σ) :
    iterateOverNativeFiles w unboundHost (some zipFile) (some cpuAbi) callFunc callArg
      = callUntilFailure zipFile callFunc (matchingEntries zipFile.entries cpuAbi) callArg := by
  have hW := iterateOverNativeFilesWhile_eq w hw zipFile cpuAbi callFunc
    (zipFile.entries.length + 1) ⟨zipFile.entries, [], 0⟩ callArg (Nat.lt_succ_self _)
  simp only [iterateOverNativeFiles, unboundHost, Host.filter, NativeLibrariesIterator.create,
    hstart, if_true, hW]

theorem callUntilFailure_logCalls {σ : Type} (zipFile : ZipFileRO)
    (callFunc : σ → ZipFileRO → Option ZipEntry → List Char → install_status_t × σ)
    (entries : List (ZipEntry × List Char × Nat)) :
    ∀ (callArg : σ) (log : List CallRecord),
      ∃ calls : List CallRecord,
        (callUntilFailure zipFile (logCalls callFunc) entries (callArg, log)).2.2 = log ++ calls ∧
        callUntilFailure zipFile callFunc entries callArg
          = ((callUntilFailure zipFile (logCalls callFunc) entries (callArg, log)).1,
              (callUntilFailure zipFile (logCalls callFunc) entries (callArg, log)).2.1) ∧
        calls.map (fun c => (c.1, c.2.1))
          = (entries.take calls.length).map (fun x => (some x.1, x.2.1.drop (x.2.2 + 1))) ∧
        calls.length ≤ entries.length ∧
        ((callUntilFailure zipFile (logCalls callFunc) entries (callArg, log)).1
            = INSTALL_SUCCEEDED →
          calls.length = entries.length ∧ ∀ c ∈ calls, c.2.2 = INSTALL_SUCCEEDED) ∧
        ((callUntilFailure zipFile (logCalls callFunc) entries (callArg, log)).1
            ≠ INSTALL_SUCCEEDED →
          ∃ init c, calls = init ++ [c] ∧
            c.2.2 = (callUntilFailure zipFile (logCalls callFunc) entries (callArg, log)).1 ∧
            ∀ d ∈ init, d.2.2 = INSTALL_SUCCEEDED) := by
  induction entries with
  | nil =>
    intro callArg log
    refine ⟨[], by simp [callUntilFailure], rfl, rfl, Nat.le_refl _, ?_, ?_⟩
    · intro _; exact ⟨rfl, fun c hc => absurd hc (List.not_mem_nil c)⟩
    · intro h; exact absurd rfl h
  | cons x rest ih =>
    intro callArg log
    by_cases hs : (callFunc callArg zipFile (some x.1) (x.2.1.drop (x.2.2 + 1))).1
        = INSTALL_SUCCEEDED
    · obtain ⟨calls, h1, h2, h3, h4, h5, h6⟩ :=
        ih (callFunc callArg zipFile (some x.1) (x.2.1.drop (x.2.2 + 1))).2
          (log ++ [(some x.1, x.2.1.drop (x.2.2 + 1), INSTALL_SUCCEEDED)])
      have hstep : callUntilFailure zipFile (logCalls callFunc) (x :: rest) (callArg, log)
          = callUntilFailure zipFile (logCalls callFunc) rest
              ((callFunc callArg zipFile (some x.1) (x.2.1.drop (x.2.2 + 1))).2,
                log ++ [(some x.1, x.2.1.drop (x.2.2 + 1), INSTALL_SUCCEEDED)]) := by
        simp only [callUntilFailure, logCalls, hs, ne_eq, not_true_eq_false, if_false]
      have hstep' : callUntilFailure zipFile callFunc (x :: rest) callArg
          = callUntilFailure zipFile callFunc rest
              (callFunc callArg zipFile (some x.1) (x.2.1.drop (x.2.2 + 1))).2 := by
        simp only [callUntilFailure, hs, ne_eq, not_true_eq_false, if_false]
      rw [hstep, hstep']
      refine ⟨(some x.1, x.2.1.drop (x.2.2 + 1), INSTALL_SUCCEEDED) :: calls, ?_, h2, ?_, ?_,
        ?_, ?_⟩
      · rw [h1]; simp
      · simp only [List.map_cons, List.length_cons, List.take_succ_cons, h3]
      · simp only [List.length_cons]; omega
      · intro hok
        obtain ⟨hl, hall⟩ := h5 hok
        refine ⟨by simp only [List.length_cons, hl], ?_⟩
        intro c hc
        rcases List.mem_cons.1 hc with rfl | hc
        · rfl
        · exact hall c hc
      · intro hbad
        obtain ⟨init, c, hc, hst, hinit⟩ := h6 hbad
        refine ⟨(some x.1, x.2.1.drop (x.2.2 + 1), INSTALL_SUCCEEDED) :: init, c, ?_, hst, ?_⟩
        · rw [hc]; rfl
        · intro d hd
          rcases List.mem_cons.1 hd with rfl | hd
          · rfl
          · exact hinit d hd
    · have hstep : callUntilFailure zipFile (logCalls callFunc) (x :: rest) (callArg, log)
          = ((callFunc callArg zipFile (some x.1) (x.2.1.drop (x.2.2 + 1))).1,
              ((callFunc callArg zipFile (some x.1) (x.2.1.drop (x.2.2 + 1))).2,
                log ++ [(some x.1, x.2.1.drop (x.2.2 + 1),
                  (callFunc callArg zipFile (some x.1) (x.2.1.drop (x.2.2 + 1))).1)])) := by
        simp only [callUntilFailure, logCalls, hs, ne_eq, not_false_eq_true, if_true]
      have hstep' : callUntilFailure zipFile callFunc (x :: rest) callArg
          = ((callFunc callArg zipFile (some x.1) (x.2.1.drop (x.2.2 + 1))).1,
              (callFunc callArg zipFile (some x.1) (x.2.1.drop (x.2.2 + 1))).2) := by
        simp only [callUntilFailure, hs, ne_eq, not_false_eq_true, if_true]
      rw [hstep, hstep']
      refine ⟨[(some x.1, x.2.1.drop (x.2.2 + 1),
        (callFunc callArg zipFile (some x.1) (x.2.1.drop (x.2.2 + 1))).1)], rfl, rfl, ?_, ?_,
        ?_, ?_⟩
      · simp
      · simp
      · intro hok; exact absurd hok hs
      · intro _
        exact ⟨[], _, rfl, rfl, fun d hd => absurd hd (List.not_mem_nil d)⟩

/-- C7. On the default path of `iterateOverNativeFiles` (an archive whose iteration
starts, no accelerator, a readable label), with the callback made to record its calls:
the calls are made, in archive order, on an initial segment of the accepted entries
whose ABI label is the target label, each with the text after the boundary; every call
but the last returned `INSTALL_SUCCEEDED`; the result is `INSTALL_SUCCEEDED` exactly
when every matching entry was called and every call succeeded, and otherwise it is the
status of the last call. Recording does not change the run. -/
theorem iterateOverNativeFiles_default_path {σ : Type} (w : Nat) (hw : 32 ≤ w)
    (zipFile : ZipFileRO) (hstart : zipFile.startIteration = true) (cpuAbi : List Char)
    (callFunc : σ → ZipFileRO → Option ZipEntry → List Char → install_status_t × σ)
    (callArg : σ) (status : install_status_t) (callArg' : σ) (calls : List CallRecord)
    (hrun : iterateOverNativeFiles w unboundHost (some zipFile) (some cpuAbi)
      (logCalls callFunc) (callArg, []) = (status, (callArg', calls))) :
    iterateOverNativeFiles w unboundHost (some zipFile) (some cpuAbi) callFunc callArg
      = (status, callArg') ∧
    calls.map (fun c => (c.1, c.2.1))
      = ((matchingEntries zipFile.entries cpuAbi).take calls.length).map
          (fun x => (some x.1, x.2.1.drop (x.2.2 + 1))) ∧
    calls.length ≤ (matchingEntries zipFile.entries cpuAbi).length ∧
    (∀ c ∈ calls.dropLast, c.2.2 = INSTALL_SUCCEEDED) ∧
    (status = INSTALL_SUCCEEDED ↔
      calls.length = (matchingEntries zipFile.entries cpuAbi).length ∧
      ∀ c ∈ calls, c.2.2 = INSTALL_SUCCEEDED) ∧
    (status ≠ INSTALL_SUCCEEDED → ∃ c, calls.getLast? = some c ∧ c.2.2 = status) := by
  rw [iterateOverNativeFiles_unbound_eq w hw zipFile hstart] at hrun
  rw [iterateOverNativeFiles_unbound_eq w hw zipFile hstart]
  obtain ⟨calls', h1, h2, h3, h4, h5, h6⟩ := callUntilFailure_logCalls zipFile callFunc
    (matchingEntries zipFile.entries cpuAbi) callArg []
  rw [hrun] at h1 h2 h5 h6
  simp only [List.nil_append] at h1
  subst h1
  have hfail : status ≠ INSTALL_SUCCEEDED → ∃ c, calls.getLast? = some c ∧ c.2.2 = status := by
    intro hbad
    obtain ⟨init, c, hc, hst, _⟩ := h6 hbad
    exact ⟨c, by rw [hc]; simp, hst⟩
  refine ⟨h2, h3, h4, ?_, ⟨h5, ?_⟩, hfail⟩
  · intro c hc
    by_cases hok : status = INSTALL_SUCCEEDED
    · exact (h5 hok).2 c (List.mem_of_mem_dropLast hc)
    · obtain ⟨init, d, hd, _, hinit⟩ := h6 hok
      rw [hd, List.dropLast_concat] at hc
      exact hinit c hc
  · rintro ⟨_, hall⟩
    by_contra hbad
    obtain ⟨c, hc, hst⟩ := hfail hbad
    have hmem : c ∈ calls := List.mem_of_getLast?_eq_some hc
    rw [hall c hmem] at hst
    exact hbad hst.symm

/-- C7 at an archive with three `x86` libraries, the callback `sumFiles` failing on the
second: two calls are made, the result is the status of the second, and the third
library is not visited. -/
theorem iterateOverNativeFiles_default_path_witness :
    32 ≤ 64 ∧ x86Archive.startIteration = true ∧
    iterateOverNativeFiles 64 unboundHost (some x86Archive) (some "x86".toList)
        (logCalls (sumFiles 64)) (0, [])
      = (INSTALL_FAILED_INVALID_APK, (100, x86Calls)) ∧
    iterateOverNativeFiles 64 unboundHost (some x86Archive) (some "x86".toList)
        (sumFiles 64) 0 = (INSTALL_FAILED_INVALID_APK, 100) :=
  ⟨by decide, rfl, by decide,
    (iterateOverNativeFiles_default_path 64 (by decide) x86Archive rfl "x86".toList
      (sumFiles 64) 0 INSTALL_FAILED_INVALID_APK 100 x86Calls (by decide)).1⟩

/-! ## Change detection -/

theorem zlibCrc32_append (c : Nat) (a b : List Nat) :
    zlibCrc32 (zlibCrc32 c a) b = zlibCrc32 c (a ++ b) := by
  unfold zlibCrc32
  rw [List.foldl_append, Nat.xor_assoc, Nat.xor_self, Nat.xor_zero]

theorem crcWhile_eq (crc32 : Nat → List Nat → Nat)
    (hcrc : ∀ c a b, crc32 (crc32 c a) b = crc32 c (a ++ b)) (fuel : Nat) :
    ∀ (unread : List Nat) (crc : Nat), unread.length < fuel →
      crcWhile crc32 fuel unread crc = if unread = [] then crc else crc32 crc unread := by
  induction fuel with
  | zero => intro unread crc h; exact absurd h (Nat.not_lt_zero _)
  | succ fuel ih =>
    intro unread crc hlt
    unfold crcWhile
    by_cases hnil : unread = []
    · subst hnil
      simp
    · have hpos : 0 < unread.length := List.length_pos.2 hnil
      have hS : crcBufferSize = 16384 := rfl
      have htake : (unread.take crcBufferSize).length > 0 := by
        rw [List.length_take, hS]
        omega
      simp only [htake, if_true, hnil, if_false]
      by_cases hrest : unread.drop crcBufferSize = []
      · have hall : unread.take crcBufferSize = unread := by
          have := List.take_append_drop crcBufferSize unread
          rw [hrest, List.append_nil] at this
          exact this
        rw [hrest, hall]
        cases fuel with
        | zero => rfl
        | succ fuel => simp [crcWhile]
      · rw [ih _ _ (by rw [List.length_drop, hS]; omega)]
        simp only [hrest, if_false]
        rw [hcrc, List.take_append_drop]

/-- The result of `isFileDifferent`, spelled out. -/
theorem isFileDifferent_eq_false_iff (sys : Sys)
    (hcrc : ∀ c a b, sys.crc32 (sys.crc32 c a) b = sys.crc32 c (a ++ b))
    (fs : FileSystem) (filePath : List Char) (fileSize : Nat) (modifiedTime : Int)
    (zipCrc : Nat) :
    (isFileDifferent sys fs filePath fileSize modifiedTime zipCrc).1 = false ↔
      ∃ st, fs filePath = some st ∧ st.isReg = true ∧ st.content.length = fileSize ∧
        st.mtime = modifiedTime ∧ st.canRead = true ∧
        sys.crc32 (sys.crc32 0 []) st.content = zipCrc := by
  unfold isFileDifferent
  cases hst : fs filePath with
  | none => simp
  | some st =>
    have hloop : crcWhile sys.crc32 (st.content.length + 1) st.content (sys.crc32 0 [])
        = sys.crc32 (sys.crc32 0 []) st.content := by
      rw [crcWhile_eq sys.crc32 hcrc _ _ _ (Nat.lt_succ_self _)]
      by_cases hnil : st.content = []
      · rw [hnil, hcrc]
        simp
      · simp only [hnil, if_false]
    simp only [hloop, Option.some.injEq, exists_eq_left']
    by_cases h1 : st.isReg = true
    swap
    · simp [h1]
    by_cases h2 : st.content.length = fileSize
    swap
    · simp [h1, h2]
    by_cases h3 : st.mtime = modifiedTime
    swap
    · simp [h1, h2, h3]
    by_cases h4 : st.canRead = true
    swap
    · simp [h1, h2, h3, h4]
    by_cases h5 : sys.crc32 (sys.crc32 0 []) st.content = zipCrc
    · simp [h1, h2, h3, h4, h5]
    · simp [h1, h2, h3, h4, h5]

/-- C8. Over a filesystem state, with a checksum that composes over consecutive
buffers as zlib's does: `isFileDifferent` returns false exactly when the path exists,
is a regular file, has the given size and modification time, can be opened for
reading, and the CRC-32 of its whole contents is the given one; and when it returns
false for the destination of an entry with readable metadata, `copyFileIfChanged`
returns `INSTALL_SUCCEEDED` and leaves the filesystem as it was. -/
theorem isFileDifferent_false_skips_copy (w : Nat) (sys : Sys)
    (hcrc : ∀ c a b, sys.crc32 (sys.crc32 c a) b = sys.crc32 c (a ++ b))
    (fs : FileSystem) (nativeLibPath : List Char) (zipFile : ZipFileRO) (entry : ZipEntry)
    (info : EntryInfo) (fileName localFileName : List Char)
    (hinfo : entry.info = some info)
    (hpath : buildLocalFileName w nativeLibPath fileName = .ok localFileName) :
    (∀ (filePath : List Char) (fileSize : Nat) (modifiedTime : Int) (zipCrc : Nat),
      (isFileDifferent sys fs filePath fileSize modifiedTime zipCrc).1 = false ↔
        ∃ st, fs filePath = some st ∧ st.isReg = true ∧ st.content.length = fileSize ∧
          st.mtime = modifiedTime ∧ st.canRead = true ∧
          sys.crc32 (sys.crc32 0 []) st.content = zipCrc) ∧
    ((isFileDifferent sys fs localFileName info.uncompLen (sys.zipTime info.modWhen)
        info.crc32).1 = false →
      copyFileIfChanged w sys nativeLibPath fs zipFile (some entry) fileName
        = (INSTALL_SUCCEEDED, fs)) := by
  refine ⟨fun filePath fileSize modifiedTime zipCrc =>
    isFileDifferent_eq_false_iff sys hcrc fs filePath fileSize modifiedTime zipCrc, ?_⟩
  intro hsame
  simp only [copyFileIfChanged, hinfo, hpath, hsame, Bool.not_false, if_true]

set_option maxRecDepth 100000 in
/-- C8 at a destination already extracted from the entry: the copy is skipped. -/
theorem isFileDifferent_false_skips_copy_witness :
    (isFileDifferent exampleSys extractedFs "/data/app-lib/x/libfoo.so".toList 9 500
      3421780262).1 = false ∧
    copyFileIfChanged 64 exampleSys "/data/app-lib/x".toList extractedFs
        ⟨[fooEntry], true⟩ (some fooEntry) "libfoo.so".toList
      = (INSTALL_SUCCEEDED, extractedFs) :=
  ⟨by decide,
    (isFileDifferent_false_skips_copy 64 exampleSys zlibCrc32_append extractedFs
      "/data/app-lib/x".toList ⟨[fooEntry], true⟩ fooEntry ⟨9, 500, 3421780262⟩
      "libfoo.so".toList "/data/app-lib/x/libfoo.so".toList rfl rfl).2 (by decide)⟩

/-! ## Failure of a copy -/

theorem set_apply (fs : FileSystem) (path : List Char) (v : Option Inode) (p : List Char) :
    (fs.set path v) p = if p = path then v else fs p := rfl

theorem writeFile_apply_of_ne (sys : Sys) (fs : FileSystem) (path : List Char)
    (data : List Nat) (p : List Char) (h : p ≠ path) :
    (writeFile sys fs path data) p = fs p := by
  unfold writeFile
  cases fs path with
  | none => rfl
  | some f => simp only [set_apply, h, if_false]

theorem utimes_apply_of_ne (fs : FileSystem) (path : List Char) (atime mtime : Int)
    (p : List Char) (h : p ≠ path) : (utimes fs path atime mtime) p = fs p := by
  unfold utimes
  cases fs path with
  | none => rfl
  | some f => simp only [set_apply, h, if_false]

theorem chmod_apply_of_ne (fs : FileSystem) (path : List Char) (mode : Nat)
    (p : List Char) (h : p ≠ path) : (chmod fs path mode) p = fs p := by
  unfold chmod
  cases fs path with
  | none => rfl
  | some f => simp only [set_apply, h, if_false]

theorem unlink_apply (fs : FileSystem) (path p : List Char) :
    (unlink fs path) p = if p = path then none else fs p := rfl

/-- A file created by `mkstemp` did not exist before, and nothing else changed. -/
theorem mkstemp_spec {sys : Sys} {fs fs1 : FileSystem} {template tmp : List Char}
    (h : mkstemp sys fs template = some (tmp, fs1)) :
    fs tmp = none ∧ ∀ p, p ≠ tmp → fs1 p = fs p := by
  unfold mkstemp at h
  by_cases hx : template.drop (template.length - 6) = "XXXXXX".toList
  · simp only [hx, if_true] at h
    cases hc : sys.mkstempChars with
    | none => simp [hc] at h
    | some chars =>
      simp only [hc] at h
      by_cases hok : chars.length = 6 ∧ fs (template.take (template.length - 6) ++ chars) = none
      · simp only [hok, and_self, if_true, Option.some.injEq, Prod.mk.injEq] at h
        obtain ⟨h1, h2⟩ := h
        subst h1
        subst h2
        exact ⟨hok.2, fun p hp => by simp only [set_apply, hp, if_false]⟩
      · simp [hok] at h
  · rw [if_neg hx] at h
    cases h

/-- Removing a file that did not exist before, from a state that differs from the old
one only at that file, gives back the old state. -/
theorem unlink_restores {fs fs2 : FileSystem} {tmp : List Char} (hnew : fs tmp = none)
    (hoff : ∀ p, p ≠ tmp → fs2 p = fs p) (p : List Char) : (unlink fs2 tmp) p = fs p := by
  rw [unlink_apply]
  by_cases hp : p = tmp
  · simp only [hp, if_true, hnew]
  · simp only [hp, if_false, hoff p hp]

/-- C9. Over a filesystem state: when a copy is needed and temp-file creation,
decompression, setting the times, setting the mode or the rename fails,
`copyFileIfChanged` returns `INSTALL_FAILED_CONTAINER_ERROR`; a temporary file that
`mkstemp` created is gone; the destination is what it was before the call, and so is
every other path. -/
theorem copyFileIfChanged_failure_leaves_state (w : Nat) (sys : Sys) (fs : FileSystem)
    (nativeLibPath : List Char) (zipFile : ZipFileRO) (entry : ZipEntry) (info : EntryInfo)
    (fileName localFileName template : List Char)
    (hinfo : entry.info = some info)
    (hpath : buildLocalFileName w nativeLibPath fileName = .ok localFileName)
    (htmp : buildLocalTmpFileName w nativeLibPath = .ok template)
    (hneeded : (isFileDifferent sys fs localFileName info.uncompLen
      (sys.zipTime info.modWhen) info.crc32).1 = true)
    (hfail : mkstemp sys fs template = none ∨ entry.uncompressOk = false ∨
      sys.utimesOk = false ∨ sys.chmodOk = false ∨ sys.renameOk = false) :
    (copyFileIfChanged w sys nativeLibPath fs zipFile (some entry) fileName).1
      = INSTALL_FAILED_CONTAINER_ERROR ∧
    (∀ tmp fs1, mkstemp sys fs template = some (tmp, fs1) →
      (copyFileIfChanged w sys nativeLibPath fs zipFile (some entry) fileName).2 tmp = none) ∧
    (copyFileIfChanged w sys nativeLibPath fs zipFile (some entry) fileName).2 localFileName
      = fs localFileName ∧
    (∀ p, (copyFileIfChanged w sys nativeLibPath fs zipFile (some entry) fileName).2 p
      = fs p) := by
  have key : (copyFileIfChanged w sys nativeLibPath fs zipFile (some entry) fileName).1
        = INSTALL_FAILED_CONTAINER_ERROR ∧
      ∀ p, (copyFileIfChanged w sys nativeLibPath fs zipFile (some entry) fileName).2 p
        = fs p := by
    simp only [copyFileIfChanged, hinfo, hpath, htmp, hneeded, Bool.not_true, Bool.false_eq_true,
      if_false]
    cases hmk : mkstemp sys fs template with
    | none => exact ⟨rfl, fun p => rfl⟩
    | some r =>
      obtain ⟨tmp, fs1⟩ := r
      obtain ⟨hnew, hoff⟩ := mkstemp_spec hmk
      have hoffW : ∀ p, p ≠ tmp → (writeFile sys fs1 tmp entry.data) p = fs p :=
        fun p hp => by rw [writeFile_apply_of_ne _ _ _ _ _ hp, hoff p hp]
      simp only
      by_cases h1 : entry.uncompressOk = true
      swap
      · have h1' : entry.uncompressOk = false := by simpa using h1
        simp only [h1', Bool.not_false, if_true]
        exact ⟨trivial, unlink_restores hnew hoffW⟩
      simp only [h1, Bool.not_true, Bool.false_eq_true, if_false]
      by_cases h2 : sys.utimesOk = true
      swap
      · have h2' : sys.utimesOk = false := by simpa using h2
        simp only [h2', Bool.not_false, if_true]
        exact ⟨trivial, unlink_restores hnew hoffW⟩
      simp only [h2, Bool.not_true, Bool.false_eq_true, if_false]
      have hoffU : ∀ a m p, p ≠ tmp →
          (utimes (writeFile sys fs1 tmp entry.data) tmp a m) p = fs p :=
        fun a m p hp => by rw [utimes_apply_of_ne _ _ _ _ _ hp, hoffW p hp]
      by_cases h3 : sys.chmodOk = true
      swap
      · have h3' : sys.chmodOk = false := by simpa using h3
        simp only [h3', Bool.not_false, if_true]
        exact ⟨trivial, unlink_restores hnew (hoffU _ _)⟩
      simp only [h3, Bool.not_true, Bool.false_eq_true, if_false]
      have hoffC : ∀ a m p, p ≠ tmp →
          (chmod (utimes (writeFile sys fs1 tmp entry.data) tmp a m) tmp mode755) p = fs p :=
        fun a m p hp => by rw [chmod_apply_of_ne _ _ _ _ hp, hoffU a m p hp]
      by_cases h4 : sys.renameOk = true
      swap
      · have h4' : sys.renameOk = false := by simpa using h4
        simp only [h4', Bool.not_false, if_true]
        exact ⟨trivial, unlink_restores hnew (hoffC _ _)⟩
      exfalso
      rcases hfail with h | h | h | h | h
      · rw [hmk] at h; cases h
      · rw [h1] at h; cases h
      · rw [h2] at h; cases h
      · rw [h3] at h; cases h
      · rw [h4] at h; cases h
  refine ⟨key.1, ?_, key.2 _, key.2⟩
  intro tmp fs1 hmk
  rw [key.2 tmp]
  exact (mkstemp_spec hmk).1

/-- C9 at a destination holding an older file, with a decompression that fails: the
call reports a container error and the older file is untouched. -/
theorem copyFileIfChanged_failure_leaves_state_witness :
    (isFileDifferent exampleSys extractedFs "/data/app-lib/x/libfoo.so".toList 9 700 1).1
      = true ∧
    brokenEntry.uncompressOk = false ∧
    (copyFileIfChanged 64 exampleSys "/data/app-lib/x".toList extractedFs
      ⟨[brokenEntry], true⟩ (some brokenEntry) "libfoo.so".toList).1
      = INSTALL_FAILED_CONTAINER_ERROR ∧
    (copyFileIfChanged 64 exampleSys "/data/app-lib/x".toList extractedFs
      ⟨[brokenEntry], true⟩ (some brokenEntry) "libfoo.so".toList).2
        "/data/app-lib/x/libfoo.so".toList
      = extractedFs "/data/app-lib/x/libfoo.so".toList :=
  have h := copyFileIfChanged_failure_leaves_state 64 exampleSys extractedFs
    "/data/app-lib/x".toList ⟨[brokenEntry], true⟩ brokenEntry ⟨9, 700, 1⟩
    "libfoo.so".toList "/data/app-lib/x/libfoo.so".toList
    "/data/app-lib/x/tmp.XXXXXX".toList rfl rfl rfl (by decide) (Or.inr (Or.inl rfl))
  ⟨by decide, rfl, h.1, h.2.2.1⟩

/-- The length checks of "Build local file path" never fire: `strlcpy` returns the
length of its source. -/
theorem buildLocalFileName_isOk (w : Nat) (nativeLibPath fileName : List Char) :
    ∃ localFileName, buildLocalFileName w nativeLibPath fileName = .ok localFileName := by
  simp [buildLocalFileName, strlcpy]

/-- The length checks on the temporary name never fire either. -/
theorem buildLocalTmpFileName_isOk (w : Nat) (nativeLibPath : List Char) :
    ∃ template, buildLocalTmpFileName w nativeLibPath = .ok template := by
  have hT : TMP_FILE_PATTERN.length = TMP_FILE_PATTERN_LEN := rfl
  simp [buildLocalTmpFileName, strlcpy, hT]

/-! ## Two boundary cases -/

/-- A text with a slash is not a base name: `lib/arm/lib/x.so` is rejected, because its
final component `x.so` does not begin with `lib`. -/
theorem acceptEntry_nested_directory :
    isFilenameSafe "lib/x.so".toList = true ∧
    acceptEntry "lib/arm/lib/x.so".toList = none := by
  decide

/-- An accepted entry without ABI directory counts as native code but matches no
preference, not even the empty label: the result is
`INSTALL_FAILED_NO_MATCHING_ABIS`. -/
theorem findSupportedAbi_entry_without_label :
    findSupportedAbi 64 unboundHost (some ⟨[entryNamed "lib/libfoobar.so"], true⟩) [[]]
      = INSTALL_FAILED_NO_MATCHING_ABIS ∧
    findSupportedAbi 64 unboundHost (some ⟨[entryNamed "lib//libfoobar.so"], true⟩) [[]]
      = 0 := by
  decide

/-! ## Size accumulation -/

theorem callUntilFailure_sumFiles (w : Nat) (zipFile : ZipFileRO)
    (entries : List (ZipEntry × List Char × Nat))
    (hinfo : ∀ x ∈ entries, x.1.info ≠ none) :
    ∀ total : Nat, total < 2 ^ w →
      callUntilFailure zipFile (sumFiles w) entries total
        = (INSTALL_SUCCEEDED, (total + (entries.map uncompLenOf).sum) % 2 ^ w) := by
  induction entries with
  | nil =>
    intro total ht
    simp only [callUntilFailure, List.map_nil, List.sum_nil, Nat.add_zero,
      Nat.mod_eq_of_lt ht]
  | cons x rest ih =>
    intro total ht
    have hx := hinfo x (List.mem_cons_self _ _)
    cases hi : x.1.info with
    | none => exact absurd hi hx
    | some info =>
      have hlen : uncompLenOf x = info.uncompLen := by
        simp only [uncompLenOf, hi]
      have hstep : sumFiles w total zipFile (some x.1) (x.2.1.drop (x.2.2 + 1))
          = (INSTALL_SUCCEEDED, addW w total info.uncompLen) := by
        simp only [sumFiles, Option.bind, hi]
      unfold callUntilFailure
      simp only [hstep, ne_eq, not_true_eq_false, if_false]
      rw [ih (fun y hy => hinfo y (List.mem_cons_of_mem _ hy)) _
        (by unfold addW; exact Nat.mod_lt _ (Nat.pos_pow_of_pos w (by norm_num)))]
      simp only [List.map_cons, List.sum_cons, hlen, addW]
      rw [Nat.add_mod, Nat.mod_mod, ← Nat.add_mod, Nat.add_assoc]

/-- C11. On the default path (an archive whose iteration starts, no accelerator, a
readable label), when `getEntryInfo` succeeds for every entry of the archive,
`sumNativeBinaries` leaves in `totalSize` the sum, modulo `2 ^ w`, of the uncompressed
sizes of the accepted entries whose ABI label is the target label, and of no other
entry; it is `0` when no entry matches. -/
theorem sumNativeBinaries_default_path (w : Nat) (hw : 32 ≤ w) (zipFile : ZipFileRO)
    (hstart : zipFile.startIteration = true)
    (hinfo : ∀ e ∈ zipFile.entries, e.info ≠ none) (cpuAbi : List Char) :
    sumNativeBinaries w unboundHost (some zipFile) (some cpuAbi)
      = ((matchingEntries zipFile.entries cpuAbi).map uncompLenOf).sum % 2 ^ w ∧
    (matchingEntries zipFile.entries cpuAbi = [] →
      sumNativeBinaries w unboundHost (some zipFile) (some cpuAbi) = 0) := by
  have hmatch : ∀ x ∈ matchingEntries zipFile.entries cpuAbi, x.1.info ≠ none := by
    intro x hx
    have hacc : x ∈ acceptedEntries zipFile.entries := (List.mem_filter.1 hx).1
    exact hinfo x.1 (acceptedEntries_spec hacc).1
  have hsum : sumNativeBinaries w unboundHost (some zipFile) (some cpuAbi)
      = ((matchingEntries zipFile.entries cpuAbi).map uncompLenOf).sum % 2 ^ w := by
    unfold sumNativeBinaries
    rw [iterateOverNativeFiles_unbound_eq w hw zipFile hstart,
      callUntilFailure_sumFiles w zipFile _ hmatch 0 (Nat.pos_pow_of_pos w (by norm_num))]
    simp only [Nat.zero_add]
  refine ⟨hsum, ?_⟩
  intro hnil
  rw [hsum, hnil]
  rfl

/-- C11 at an archive with `x86` libraries of 100 and 250 bytes and an `arm` library
of 7 bytes: the total for `x86` is 350. -/
theorem sumNativeBinaries_default_path_witness :
    32 ≤ 32 ∧ sizedArchive.startIteration = true ∧
    (∀ e ∈ sizedArchive.entries, e.info ≠ none) ∧
    ((matchingEntries sizedArchive.entries "x86".toList).map uncompLenOf).sum % 2 ^ 32 = 350 ∧
    sumNativeBinaries 32 unboundHost (some sizedArchive) (some "x86".toList) = 350 :=
  have h := sumNativeBinaries_default_path 32 (by decide) sizedArchive rfl (by decide)
    "x86".toList
  ⟨by decide, rfl, by decide, by decide, h.1.trans (by decide)⟩

/-! ## A second extraction -/

theorem set_apply_self (fs : FileSystem) (path : List Char) (v : Option Inode) :
    (fs.set path v) path = v := by
  simp only [set_apply, if_true]

theorem isFileDifferent_congr (sys sys2 : Sys) (h : sys2.crc32 = sys.crc32)
    (fs : FileSystem) (filePath : List Char) (fileSize : Nat) (modifiedTime : Int)
    (zipCrc : Nat) :
    isFileDifferent sys2 fs filePath fileSize modifiedTime zipCrc
      = isFileDifferent sys fs filePath fileSize modifiedTime zipCrc := by
  unfold isFileDifferent
  rw [h]

/-- The destination after a copy that went through every step: a regular, readable
file holding the bytes of the entry, with the time of the entry and mode 0755. -/
theorem extracted_file_at_destination (sys : Sys) (fs fs1 : FileSystem)
    (template tmp dst : List Char) (data : List Nat) (atime mtime : Int)
    (hmk : mkstemp sys fs template = some (tmp, fs1)) :
    (rename (chmod (utimes (writeFile sys fs1 tmp data) tmp atime mtime) tmp mode755) tmp dst) dst
      = some ⟨true, data, mtime, atime, mode755, true⟩ := by
  have hfs1 : fs1 tmp = some ⟨true, [], sys.now, sys.now, 384, true⟩ := by
    unfold mkstemp at hmk
    by_cases hx : template.drop (template.length - 6) = "XXXXXX".toList
    · simp only [hx, if_true] at hmk
      cases hc : sys.mkstempChars with
      | none => simp [hc] at hmk
      | some chars =>
        simp only [hc] at hmk
        by_cases hok : chars.length = 6
            ∧ fs (template.take (template.length - 6) ++ chars) = none
        · simp only [hok, and_self, if_true, Option.some.injEq, Prod.mk.injEq] at hmk
          obtain ⟨h1, h2⟩ := hmk
          subst h1
          subst h2
          exact set_apply_self _ _ _
        · simp [hok] at hmk
    · rw [if_neg hx] at hmk
      cases hmk
  have hW : (writeFile sys fs1 tmp data) tmp
      = some ⟨true, data, sys.now, sys.now, 384, true⟩ := by
    simp only [writeFile, hfs1, set_apply_self, List.nil_append]
  have hU : (utimes (writeFile sys fs1 tmp data) tmp atime mtime) tmp
      = some ⟨true, data, mtime, atime, 384, true⟩ := by
    simp only [utimes, hW, set_apply_self]
  have hC : (chmod (utimes (writeFile sys fs1 tmp data) tmp atime mtime) tmp mode755) tmp
      = some ⟨true, data, mtime, atime, mode755, true⟩ := by
    simp only [chmod, hU, set_apply_self]
  unfold rename
  by_cases hsame : tmp = dst
  · simp only [hsame, if_true]
    rw [← hsame]
    exact hC
  · have hne : ¬ dst = tmp := fun e => hsame e.symm
    simp only [hsame, if_false, set_apply, hne, if_true, hC]

/-- C12. Over a filesystem state, with a checksum that composes over consecutive
buffers, for an entry whose decompression writes bytes of the recorded size and
CRC-32: after a call of `copyFileIfChanged` that returned `INSTALL_SUCCEEDED`, a second
call for the same entry and root (whatever the clock, `mkstemp` and the other calls
would answer then) finds `isFileDifferent` false, returns `INSTALL_SUCCEEDED`, and
leaves the filesystem exactly as the first call left it. -/
theorem copyFileIfChanged_twice (w : Nat) (sys sys2 : Sys) (fs : FileSystem)
    (nativeLibPath : List Char) (zipFile : ZipFileRO) (entry : ZipEntry) (info : EntryInfo)
    (fileName : List Char)
    (hcrc : ∀ c a b, sys.crc32 (sys.crc32 c a) b = sys.crc32 c (a ++ b))
    (hsameCrc : sys2.crc32 = sys.crc32) (hsameTime : sys2.zipTime = sys.zipTime)
    (hinfo : entry.info = some info)
    (hfit : nativeLibPath.length + fileName.length + 2 < 2 ^ w)
    (hlen : entry.data.length = info.uncompLen)
    (hdata : sys.crc32 (sys.crc32 0 []) entry.data = info.crc32)
    (hfirst : (copyFileIfChanged w sys nativeLibPath fs zipFile (some entry) fileName).1
      = INSTALL_SUCCEEDED) :
    (isFileDifferent sys2
        (copyFileIfChanged w sys nativeLibPath fs zipFile (some entry) fileName).2
        (nativeLibPath ++ '/' :: fileName) info.uncompLen (sys2.zipTime info.modWhen)
        info.crc32).1 = false ∧
    copyFileIfChanged w sys2 nativeLibPath
        (copyFileIfChanged w sys nativeLibPath fs zipFile (some entry) fileName).2
        zipFile (some entry) fileName
      = (INSTALL_SUCCEEDED,
          (copyFileIfChanged w sys nativeLibPath fs zipFile (some entry) fileName).2) := by
  have hS : INSTALL_SUCCEEDED = 1 := rfl
  have hC : INSTALL_FAILED_CONTAINER_ERROR = -18 := rfl
  have hne : ¬ INSTALL_FAILED_CONTAINER_ERROR = INSTALL_SUCCEEDED := by
    rw [hS, hC]; norm_num
  have hpath := buildLocalFileName_eq w nativeLibPath fileName hfit
  have hskip : ∀ fs1 : FileSystem,
      (isFileDifferent sys2 fs1 (nativeLibPath ++ '/' :: fileName) info.uncompLen
        (sys2.zipTime info.modWhen) info.crc32).1 = false →
      copyFileIfChanged w sys2 nativeLibPath fs1 zipFile (some entry) fileName
        = (INSTALL_SUCCEEDED, fs1) := by
    intro fs1 h
    simp only [copyFileIfChanged, hinfo, hpath, h, Bool.not_false, if_true]
  have hdiff : (isFileDifferent sys2
      (copyFileIfChanged w sys nativeLibPath fs zipFile (some entry) fileName).2
      (nativeLibPath ++ '/' :: fileName) info.uncompLen (sys2.zipTime info.modWhen)
      info.crc32).1 = false := by
    rw [isFileDifferent_congr sys sys2 hsameCrc, hsameTime]
    by_cases hd : (isFileDifferent sys fs (nativeLibPath ++ '/' :: fileName) info.uncompLen
        (sys.zipTime info.modWhen) info.crc32).1 = false
    · have h1 : copyFileIfChanged w sys nativeLibPath fs zipFile (some entry) fileName
          = (INSTALL_SUCCEEDED, fs) := by
        simp only [copyFileIfChanged, hinfo, hpath, hd, Bool.not_false, if_true]
      rw [h1]
      exact hd
    · have hd' : (isFileDifferent sys fs (nativeLibPath ++ '/' :: fileName) info.uncompLen
          (sys.zipTime info.modWhen) info.crc32).1 = true := by simpa using hd
      obtain ⟨template, htmp⟩ := buildLocalTmpFileName_isOk w nativeLibPath
      have hstore : storeByte (nativeLibPath ++ '/' :: fileName) nativeLibPath.length '/'
          = nativeLibPath ++ '/' :: fileName := by
        have hlt : nativeLibPath.length < (nativeLibPath ++ '/' :: fileName).length := by
          simp
        simp only [storeByte, hlt, if_true]
        rw [List.set_append_right _ _ (Nat.le_refl _)]
        simp
      simp only [copyFileIfChanged, hinfo, hpath, hd', htmp, hstore, Bool.not_true,
        Bool.false_eq_true, if_false] at hfirst ⊢
      cases hmk : mkstemp sys fs template with
      | none =>
        rw [hmk] at hfirst
        exact absurd hfirst hne
      | some r =>
        obtain ⟨tmp, fs1⟩ := r
        rw [hmk] at hfirst
        simp only at hfirst ⊢
        by_cases h1 : entry.uncompressOk = true
        swap
        · have h1' : entry.uncompressOk = false := by simpa using h1
          simp only [h1', Bool.not_false, if_true] at hfirst
          exact absurd hfirst hne
        by_cases h2 : sys.utimesOk = true
        swap
        · have h2' : sys.utimesOk = false := by simpa using h2
          simp only [h1, h2', Bool.not_true, Bool.not_false, Bool.false_eq_true, if_false,
            if_true] at hfirst
          exact absurd hfirst hne
        by_cases h3 : sys.chmodOk = true
        swap
        · have h3' : sys.chmodOk = false := by simpa using h3
          simp only [h1, h2, h3', Bool.not_true, Bool.not_false, Bool.false_eq_true, if_false,
            if_true] at hfirst
          exact absurd hfirst hne
        by_cases h4 : sys.renameOk = true
        swap
        · have h4' : sys.renameOk = false := by simpa using h4
          simp only [h1, h2, h3, h4', Bool.not_true, Bool.not_false, Bool.false_eq_true,
            if_false, if_true] at hfirst
          exact absurd hfirst hne
        simp only [h1, h2, h3, h4, Bool.not_true, Bool.false_eq_true, if_false]
        rw [isFileDifferent_eq_false_iff sys hcrc]
        exact ⟨_, extracted_file_at_destination sys fs fs1 template tmp _ entry.data _ _ hmk,
          rfl, hlen, rfl, rfl, hdata⟩
  exact ⟨hdiff, hskip _ hdiff⟩

set_option maxRecDepth 100000 in
/-- C12 at the entry `lib/x86/libfoo.so` and an empty filesystem: the first call
extracts the file; a second call, at a time when every step of a copy would fail,
still succeeds and changes nothing. -/
theorem copyFileIfChanged_twice_witness :
    (copyFileIfChanged 64 exampleSys "/data/app-lib/x".toList emptyFs ⟨[fooEntry], true⟩
      (some fooEntry) "libfoo.so".toList).1 = INSTALL_SUCCEEDED ∧
    fooEntry.data.length = 9 ∧
    zlibCrc32 (zlibCrc32 0 []) fooEntry.data = 3421780262 ∧
    copyFileIfChanged 64 laterSys "/data/app-lib/x".toList
        (copyFileIfChanged 64 exampleSys "/data/app-lib/x".toList emptyFs ⟨[fooEntry], true⟩
          (some fooEntry) "libfoo.so".toList).2
        ⟨[fooEntry], true⟩ (some fooEntry) "libfoo.so".toList
      = (INSTALL_SUCCEEDED,
          (copyFileIfChanged 64 exampleSys "/data/app-lib/x".toList emptyFs
            ⟨[fooEntry], true⟩ (some fooEntry) "libfoo.so".toList).2) :=
  ⟨by decide, by decide, by decide,
    (copyFileIfChanged_twice 64 exampleSys laterSys emptyFs "/data/app-lib/x".toList
      ⟨[fooEntry], true⟩ fooEntry ⟨9, 500, 3421780262⟩ "libfoo.so".toList
      zlibCrc32_append rfl rfl rfl (by decide) (by decide) (by decide) (by decide)).2⟩

/-! ## The asset classifier -/

/-- The result of `findSupportedAbi` in terms of the accelerator's verdict, the default
scan and the asset classifier. -/
theorem findSupportedAbi_eq (w : Nat) (apkScanLib : Option (ZipFileRO → Option PFilterObject))
    (assets : Option (ZipFileRO → List (List Char) → Nat → Int))
    (zipFile : ZipFileRO) (supportedAbis : List (List Char)) :
    findSupportedAbi w ⟨apkScanLib, assets⟩ (some zipFile) supportedAbis =
      match acceleratorVerdict w apkScanLib zipFile supportedAbis with
      | some status =>
        if status = NO_NATIVE_LIBRARIES then
          match assets with
          | some GetAssetsStatusFunc => GetAssetsStatusFunc zipFile supportedAbis supportedAbis.length
          | none => status
        else status
      | none =>
        match defaultScan w zipFile supportedAbis with
        | none => INSTALL_FAILED_INVALID_APK
        | some status =>
          if 0 ≤ status then
            match assets with
            | some GetAssetsStatusFunc =>
              if GetAssetsStatusFunc zipFile supportedAbis supportedAbis.length
                  ≠ NO_NATIVE_LIBRARIES then
                GetAssetsStatusFunc zipFile supportedAbis supportedAbis.length
              else status
            | none => status
          else status := by
  have hfilter : Host.filter ⟨apkScanLib, assets⟩ zipFile = Host.filter ⟨apkScanLib, none⟩ zipFile :=
    rfl
  unfold findSupportedAbi acceleratorVerdict defaultScan
  simp only [hfilter]
  cases hf : Host.filter ⟨apkScanLib, none⟩ zipFile with
  | some filter =>
    simp only
    by_cases hrc : 0 = (filter.FilterLibraryFunc LibFileAbiDealer (dealLibAbiFile w)
        ⟨NO_NATIVE_LIBRARIES, supportedAbis.length, supportedAbis⟩).1
    · simp only [hrc, if_true]
      by_cases hs : (filter.FilterLibraryFunc LibFileAbiDealer (dealLibAbiFile w)
          ⟨NO_NATIVE_LIBRARIES, supportedAbis.length, supportedAbis⟩).2.status
          = NO_NATIVE_LIBRARIES
      · cases assets with
        | none => simp only [hs, if_true]
        | some f => simp only [hs, if_true]
      · simp only [hs, if_false]
    · simp only [hrc, if_false]
      cases NativeLibrariesIterator.create zipFile with
      | none => rfl
      | some it =>
        simp only [Bool.not_false, Bool.and_true, decide_eq_true_eq, ge_iff_le, ne_eq]
        by_cases h0 : 0 ≤ findSupportedAbiWhile w supportedAbis (it.mCookie.length + 1) it
            NO_NATIVE_LIBRARIES
        · cases assets with
          | none => simp only [h0, if_true, not_true_eq_false, if_false]
          | some f => simp only [h0, if_true]
        · simp only [h0, if_false, not_true_eq_false]
  | none =>
    simp only
    cases NativeLibrariesIterator.create zipFile with
    | none => rfl
    | some it =>
      simp only [Bool.not_false, Bool.and_true, decide_eq_true_eq, ge_iff_le, ne_eq]
      by_cases h0 : 0 ≤ findSupportedAbiWhile w supportedAbis (it.mCookie.length + 1) it
          NO_NATIVE_LIBRARIES
      · cases assets with
        | none => simp only [h0, if_true, not_true_eq_false, if_false]
        | some f => simp only [h0, if_true]
      · simp only [h0, if_false, not_true_eq_false]

/-- C13, as stated, fails: with the accelerator unavailable and an archive that
matches the preference list at index 1, the result follows the asset classifier; it is
`0` with a classifier that answers `0` and `INSTALL_FAILED_NO_MATCHING_ABIS` with one
that answers so. -/
theorem findSupportedAbi_default_path_consults_assets :
    acceleratorVerdict 64 none armArchive armPreferences = none ∧
    findSupportedAbi 64 ⟨none, none⟩ (some armArchive) armPreferences = 1 ∧
    findSupportedAbi 64 ⟨none, some assetsSayZero⟩ (some armArchive) armPreferences = 0 ∧
    findSupportedAbi 64 ⟨none, some assetsSayNoMatch⟩ (some armArchive) armPreferences
      = INSTALL_FAILED_NO_MATCHING_ABIS := by
  decide

/-- C13, amended. The asset classifier is consulted in two situations: when the
accelerator classified the archive and reported `NO_NATIVE_LIBRARIES`, and, with the
accelerator unavailable or declining, when the default scan ended with a matched index.
In every other run, that is when the accelerator reported anything else, or when the
default scan ended with a negative status or could not start, the result is the same
for any two behaviours of the asset classifier. -/
theorem findSupportedAbi_asset_classifier (w : Nat)
    (apkScanLib : Option (ZipFileRO → Option PFilterObject))
    (zipFile : ZipFileRO) (supportedAbis : List (List Char)) :
    (∀ assets1 assets2 : Option (ZipFileRO → List (List Char) → Nat → Int),
      ((∃ status, acceleratorVerdict w apkScanLib zipFile supportedAbis = some status ∧
          status ≠ NO_NATIVE_LIBRARIES) ∨
        (acceleratorVerdict w apkScanLib zipFile supportedAbis = none ∧
          ∀ status, defaultScan w zipFile supportedAbis = some status → status < 0)) →
      findSupportedAbi w ⟨apkScanLib, assets1⟩ (some zipFile) supportedAbis
        = findSupportedAbi w ⟨apkScanLib, assets2⟩ (some zipFile) supportedAbis) ∧
    (∀ GetAssetsStatusFunc : ZipFileRO → List (List Char) → Nat → Int,
      acceleratorVerdict w apkScanLib zipFile supportedAbis = some NO_NATIVE_LIBRARIES →
      findSupportedAbi w ⟨apkScanLib, some GetAssetsStatusFunc⟩ (some zipFile) supportedAbis
        = GetAssetsStatusFunc zipFile supportedAbis supportedAbis.length) ∧
    (∀ (GetAssetsStatusFunc : ZipFileRO → List (List Char) → Nat → Int) (status : Int),
      acceleratorVerdict w apkScanLib zipFile supportedAbis = none →
      defaultScan w zipFile supportedAbis = some status → 0 ≤ status →
      findSupportedAbi w ⟨apkScanLib, some GetAssetsStatusFunc⟩ (some zipFile) supportedAbis
        = if GetAssetsStatusFunc zipFile supportedAbis supportedAbis.length
            ≠ NO_NATIVE_LIBRARIES then
          GetAssetsStatusFunc zipFile supportedAbis supportedAbis.length
        else status) := by
  refine ⟨?_, ?_, ?_⟩
  · intro assets1 assets2 hcond
    rw [findSupportedAbi_eq, findSupportedAbi_eq]
    rcases hcond with ⟨status, hv, hne⟩ | ⟨hv, hneg⟩
    · simp only [hv, hne, if_false]
    · simp only [hv]
      cases hd : defaultScan w zipFile supportedAbis with
      | none => rfl
      | some status =>
        have h0 : ¬ 0 ≤ status := by
          have := hneg status hd
          omega
        simp only [h0, if_false]
  · intro f hv
    rw [findSupportedAbi_eq]
    simp only [hv, if_true]
  · intro f status hv hd h0
    rw [findSupportedAbi_eq]
    simp only [hv, hd, h0, if_true]

/-- C13, amended, at an archive whose only library is for `mips`, with the accelerator
unavailable: the scan ends with `INSTALL_FAILED_NO_MATCHING_ABIS` and so does the call,
whatever the asset classifier answers. -/
theorem findSupportedAbi_asset_classifier_witness :
    acceleratorVerdict 64 none mipsArchive armPreferences = none ∧
    defaultScan 64 mipsArchive armPreferences = some INSTALL_FAILED_NO_MATCHING_ABIS ∧
    findSupportedAbi 64 ⟨none, some assetsSayZero⟩ (some mipsArchive) armPreferences
      = findSupportedAbi 64 ⟨none, some assetsSayNoMatch⟩ (some mipsArchive) armPreferences := by
  have hd : defaultScan 64 mipsArchive armPreferences = some INSTALL_FAILED_NO_MATCHING_ABIS := by
    decide
  refine ⟨rfl, hd, ?_⟩
  refine (findSupportedAbi_asset_classifier 64 none mipsArchive armPreferences).1
    (some assetsSayZero) (some assetsSayNoMatch) (Or.inr ⟨rfl, ?_⟩)
  intro status hs
  rw [hd] at hs
  have := Option.some.inj hs
  rw [← this]
  decide

/-! ## hasRenderscriptBitcode -/

/-- C14. For the archive whose only entry is `assets/my dir/kernel.bc`, on the default
path, `hasRenderscriptBitcode` answers `NO_BITCODE_PRESENT`, although the name ends in
`.bc` and its base name `kernel.bc` passes `isFilenameSafe`: `baseName` is set to
`fileName + 1`, not to `lastSlash + 1`, so the directories are validated too and the
space in `my dir` rejects the entry. -/
theorem hasRenderscriptBitcode_validates_whole_path :
    hasRenderscriptBitcode unboundHost ⟨[entryNamed "assets/my dir/kernel.bc"], true⟩
      = NO_BITCODE_PRESENT ∧
    3 ≤ "assets/my dir/kernel.bc".toList.length ∧
    "assets/my dir/kernel.bc".toList.drop ("assets/my dir/kernel.bc".toList.length - 3)
      = RS_BITCODE_SUFFIX ∧
    strrchr "assets/my dir/kernel.bc".toList '/' = some 13 ∧
    "assets/my dir/kernel.bc".toList.drop 14 = "kernel.bc".toList ∧
    isFilenameSafe "kernel.bc".toList = true ∧
    isFilenameSafe ("assets/my dir/kernel.bc".toList.drop 1) = false ∧
    hasRenderscriptBitcode unboundHost ⟨[entryNamed "assets/kernel.bc"], true⟩
      = BITCODE_PRESENT := by
  decide

/-- What the default scan of `hasRenderscriptBitcode` computes: bitcode is reported
exactly when some entry has a readable name that ends in `.bc` and passes
`isFilenameSafe` from its second byte on when it holds a slash, as a whole when it
holds none. -/
theorem hasRenderscriptBitcodeWhile_eq (entries : List ZipEntry) :
    (hasRenderscriptBitcodeWhile entries = BITCODE_PRESENT ↔
      ∃ e ∈ entries, ∃ fileName, getEntryFileName e PATH_MAX = some fileName ∧
        (fileName.drop (fileName.length - 3)).take 3 = RS_BITCODE_SUFFIX ∧
        isFilenameSafe (if '/' ∈ fileName then fileName.drop 1 else fileName) = true) ∧
    (hasRenderscriptBitcodeWhile entries = BITCODE_PRESENT ∨
      hasRenderscriptBitcodeWhile entries = NO_BITCODE_PRESENT) := by
  have hS : RS_BITCODE_SUFFIX.take 3 = RS_BITCODE_SUFFIX := by decide
  have hne : ¬ NO_BITCODE_PRESENT = BITCODE_PRESENT := by decide
  induction entries with
  | nil =>
    simp only [hasRenderscriptBitcodeWhile, List.not_mem_nil, false_and, exists_false,
      iff_false, or_true, and_true]
    exact hne
  | cons e rest ih =>
    unfold hasRenderscriptBitcodeWhile
    cases hn : getEntryFileName e PATH_MAX with
    | none =>
      simp only [List.mem_cons, exists_eq_or_imp, hn, false_and, exists_false, false_or,
        reduceCtorEq]
      exact ih
    | some fileName =>
      have hbase : (match strrchr fileName '/' with
          | none => fileName
          | some _ => fileName.drop 1)
          = if '/' ∈ fileName then fileName.drop 1 else fileName := by
        cases hr : strrchr fileName '/' with
        | none =>
          have := (strrchr_eq_none_iff fileName '/').1 hr
          simp only [this, if_false]
        | some k =>
          have : '/' ∈ fileName := by
            by_contra hc
            rw [(strrchr_eq_none_iff fileName '/').2 hc] at hr
            cases hr
          simp only [this, if_true]
      simp only [hbase, RS_BITCODE_SUFFIX_LEN, Bool.and_eq_true, decide_eq_true_eq,
        strncmp_eq_zero_iff, hS, List.mem_cons, exists_eq_or_imp, hn, Option.some.injEq,
        exists_eq_left']
      by_cases hc : (fileName.drop (fileName.length - 3)).take 3 = RS_BITCODE_SUFFIX ∧
          isFilenameSafe (if '/' ∈ fileName then fileName.drop 1 else fileName) = true
      · simp only [hc, and_self, if_true, true_or, or_self]
      · simp only [hc, if_false, false_or]
        exact ih

/-! ## Names the reader delivers and names it does not -/

theorem getEntryFileName_of_fits {e : ZipEntry} {name : List Char}
    (he : e.name = some name) (hstr : NUL ∉ name) (hfit : name.length < PATH_MAX) :
    getEntryFileName e PATH_MAX = some name := by
  have h : name.length + 1 ≤ PATH_MAX := hfit
  simp only [getEntryFileName, he, h, if_true, cstr_eq_self hstr]

theorem getEntryFileName_of_too_long {e : ZipEntry} {name : List Char}
    (he : e.name = some name) (hlong : PATH_MAX ≤ name.length) :
    getEntryFileName e PATH_MAX = none := by
  have h : ¬ name.length + 1 ≤ PATH_MAX := by omega
  simp only [getEntryFileName, he, h, if_false]

theorem nextLoop_cons_of_unreadable {e : ZipEntry}
    (hname : getEntryFileName e PATH_MAX = none)
    (cookie : List ZipEntry) (fileName : List Char) (mLastSlash : Nat) :
    nextLoop (e :: cookie) fileName mLastSlash = nextLoop cookie fileName mLastSlash := by
  simp only [nextLoop, hname]

theorem nextLoop_cons_of_reject {e : ZipEntry} {name : List Char}
    (hname : getEntryFileName e PATH_MAX = some name) (hacc : acceptEntry name = none)
    (cookie : List ZipEntry) (fileName : List Char) (mLastSlash : Nat) :
    nextLoop (e :: cookie) fileName mLastSlash = nextLoop cookie name mLastSlash := by
  simp only [nextLoop, hname, hacc]

theorem isFilenameSafe_replicate_append (c : Char) (hc : isSafeChar c = true)
    (hn : c ≠ NUL) (n : Nat) (s : List Char) :
    isFilenameSafe (List.replicate n c ++ s) = isFilenameSafe s := by
  induction n with
  | zero => rfl
  | succ n ih =>
    rw [List.replicate_succ, List.cons_append]
    simp only [isFilenameSafe, hn, if_false, hc, if_true, ih]

/-- C4, amended. For an entry whose name is `lib/` followed by a text without slash
(so that the last slash of the name is the one at offset 3), this text not being
`gdbserver` followed by further bytes: `next` returns the entry, with the boundary at
offset 3, when the name is at least 14 and at most 4095 bytes long and the text begins
with `lib`, ends in `.so` and passes `isFilenameSafe`; otherwise `next` skips the entry
and goes on with the rest of the archive. An entry returned in this way has no ABI
label: the region size `lastSlash - (fileName + 4)` is `2 ^ w - 1` as a `size_t` and
the label test of the callers fails for every label. -/
theorem next_on_name_without_abi_directory (w : Nat) (hw : 32 ≤ w) (e : ZipEntry)
    (rest : List Char) (cookie : List ZipEntry) (fileName : List Char) (mLastSlash : Nat)
    (he : e.name = some (APK_LIB ++ rest)) (hstr : NUL ∉ rest) (hslash : '/' ∉ rest)
    (hgdb : rest = GDBSERVER ∨ rest.take 9 ≠ GDBSERVER) :
    ((14 ≤ (APK_LIB ++ rest).length ∧ (APK_LIB ++ rest).length < PATH_MAX ∧
        "lib".toList <+: rest ∧ LIB_SUFFIX <:+ rest ∧ isFilenameSafe rest = true) →
      NativeLibrariesIterator.next ⟨e :: cookie, fileName, mLastSlash⟩
        = (some e, ⟨cookie, APK_LIB ++ rest, 3⟩) ∧
      subW w 3 APK_LIB_LEN = 2 ^ w - 1 ∧
      ∀ abi : List Char,
        (abi.length = subW w 3 APK_LIB_LEN
          && strncmp ((APK_LIB ++ rest).drop APK_LIB_LEN) abi (subW w 3 APK_LIB_LEN) = 0)
          = false) ∧
    (¬ (14 ≤ (APK_LIB ++ rest).length ∧ (APK_LIB ++ rest).length < PATH_MAX ∧
        "lib".toList <+: rest ∧ LIB_SUFFIX <:+ rest ∧ isFilenameSafe rest = true) →
      ∃ buffer, NativeLibrariesIterator.next ⟨e :: cookie, fileName, mLastSlash⟩
        = NativeLibrariesIterator.next ⟨cookie, buffer, mLastSlash⟩) := by
  have h2 := two_pow_ge_of_le hw
  have hlenName : (APK_LIB ++ rest).length = 4 + rest.length := by
    rw [List.length_append, show APK_LIB.length = 4 by rfl]
  have hroot : (APK_LIB ++ rest).take 4 = APK_LIB := by
    rw [List.take_left']
    rfl
  have hdrop4 : (APK_LIB ++ rest).drop 4 = rest := by
    rw [List.drop_left']
    rfl
  have hdrop3 : (APK_LIB ++ rest).drop 3 = '/' :: rest := by
    rw [show APK_LIB ++ rest = "lib".toList ++ '/' :: rest by rfl, List.drop_left']
    rfl
  have hr : strrchr (APK_LIB ++ rest) '/' = some 3 := by
    rw [show APK_LIB ++ rest = "lib".toList ++ '/' :: rest by rfl,
      strrchr_append_cons _ _ _ hslash]
    rfl
  have hstrName : NUL ∉ APK_LIB ++ rest := by
    intro hmem
    rcases List.mem_append.1 hmem with h | h
    · revert h; decide
    · exact hstr h
  have hsub : subW w 3 APK_LIB_LEN = 2 ^ w - 1 := by
    rw [show APK_LIB_LEN = 4 by rfl, subW_of_lt (by norm_num) (by omega)]
  refine ⟨?_, ?_⟩
  · rintro ⟨h14, hfit, hpre, hsuf, hsafe⟩
    have hname := getEntryFileName_of_fits he hstrName hfit
    have hacc : acceptEntry (APK_LIB ++ rest) = some 3 := by
      rw [acceptEntry_eq_some_iff]
      refine ⟨hroot, h14, hr, Or.inr ⟨?_, ?_, ?_⟩⟩
      · have hsuf' : LIB_SUFFIX <:+ APK_LIB ++ rest := by
          obtain ⟨t, ht⟩ := hsuf
          exact ⟨APK_LIB ++ t, by rw [List.append_assoc, ht]⟩
        have h3 := List.suffix_iff_eq_drop.1 hsuf'
        rw [show LIB_SUFFIX.length = 3 by rfl] at h3
        rw [← h3]
        rfl
      · have h3 := List.prefix_iff_eq_take.1 hpre
        rw [show "lib".toList.length = 3 by rfl] at h3
        rw [hdrop3, show (4 : Nat) = 3 + 1 by rfl, List.take_succ_cons, ← h3]
        rfl
      · rw [hdrop4]
        exact hsafe
    refine ⟨nextLoop_cons_of_accept hname hacc cookie fileName mLastSlash, hsub, ?_⟩
    intro abi
    have hiff := labelTest_iff w hw (APK_LIB ++ rest) 3 (by omega) hfit abi
    have hnone : abiLabel (APK_LIB ++ rest) 3 = none := by
      simp [abiLabel, APK_LIB_LEN]
    cases ht : labelTest (APK_LIB ++ rest) (subW w 3 APK_LIB_LEN) abi with
    | false => exact ht
    | true =>
      rw [hnone] at hiff
      exact absurd (hiff.1 ht) (by simp)
  · intro hnot
    by_cases hfit : (APK_LIB ++ rest).length < PATH_MAX
    · have hname := getEntryFileName_of_fits he hstrName hfit
      cases hacc : acceptEntry (APK_LIB ++ rest) with
      | none =>
        exact ⟨APK_LIB ++ rest, nextLoop_cons_of_reject hname hacc cookie fileName mLastSlash⟩
      | some k =>
        exfalso
        obtain ⟨_, h14, hrk, hcase⟩ := (acceptEntry_eq_some_iff _ _).1 hacc
        have hk : k = 3 := by
          rw [hr] at hrk
          exact (Option.some.inj hrk).symm
        subst hk
        rw [hdrop4, hdrop3] at hcase
        rcases hcase with hg | ⟨hsuf, hpre, hsafe⟩
        · rcases hgdb with hgd | hgd
          · rw [hlenName, hgd, show GDBSERVER.length = 9 by rfl] at h14
            omega
          · exact hgd hg
        · apply hnot
          refine ⟨h14, hfit, ?_, ?_, hsafe⟩
          · rw [show (4 : Nat) = 3 + 1 by rfl, List.take_succ_cons] at hpre
            have hp : rest.take 3 = "lib".toList := List.tail_eq_of_cons_eq hpre
            rw [← hp]
            exact List.take_prefix 3 rest
          · have hd : (APK_LIB ++ rest).drop ((APK_LIB ++ rest).length - 3)
                = rest.drop (rest.length - 3) := by
              rw [hlenName, show 4 + rest.length - 3 = 4 + (rest.length - 3) by omega,
                ← List.drop_drop, hdrop4]
            rw [hd] at hsuf
            have hl : (rest.drop (rest.length - 3)).length ≤ 3 := by
              rw [List.length_drop]
              omega
            rw [List.take_of_length_le hl] at hsuf
            rw [← hsuf]
            exact List.drop_suffix _ rest
    · have hname := getEntryFileName_of_too_long he (Nat.le_of_not_lt hfit)
      exact ⟨fileName, nextLoop_cons_of_unreadable hname cookie fileName mLastSlash⟩

/-- C4, amended, at the entry `lib/libfoobar.so` on a 64-bit platform: it is returned
with the boundary at offset 3, and the label `libfoobar.so` does not pass the test. -/
theorem next_on_name_without_abi_directory_witness :
    32 ≤ 64 ∧ NUL ∉ "libfoobar.so".toList ∧ '/' ∉ "libfoobar.so".toList ∧
    NativeLibrariesIterator.next ⟨[entryNamed "lib/libfoobar.so"], [], 0⟩
      = (some (entryNamed "lib/libfoobar.so"), ⟨[], "lib/libfoobar.so".toList, 3⟩) ∧
    subW 64 3 APK_LIB_LEN = 2 ^ 64 - 1 :=
  have h := (next_on_name_without_abi_directory 64 (by decide)
    (entryNamed "lib/libfoobar.so") "libfoobar.so".toList [] [] 0 rfl (by decide)
    (by decide) (Or.inr (by decide))).1
    ⟨by decide, by decide, by decide, by decide, by decide⟩
  ⟨by decide, by decide, by decide, h.1, h.2.1⟩

theorem isFilenameSafe_cons (c : Char) (hc : isSafeChar c = true) (hn : c ≠ NUL)
    (s : List Char) : isFilenameSafe (c :: s) = isFilenameSafe s := by
  simp only [isFilenameSafe, hn, if_false, hc, if_true]

theorem padded_base_facts (n : Nat) :
    isFilenameSafe ("lib".toList ++ (List.replicate n 'a' ++ ".so".toList)) = true ∧
    '/' ∉ "lib".toList ++ (List.replicate n 'a' ++ ".so".toList) ∧
    ("lib/x86/lib".toList ++ (List.replicate n 'a' ++ ".so".toList)).length = n + 14 := by
  refine ⟨?_, ?_, ?_⟩
  · have h : isFilenameSafe ("lib".toList ++ (List.replicate n 'a' ++ ".so".toList))
        = isFilenameSafe (List.replicate n 'a' ++ ".so".toList) := by
      show isFilenameSafe ('l' :: 'i' :: 'b' :: (List.replicate n 'a' ++ ".so".toList)) = _
      rw [isFilenameSafe_cons 'l' (by decide) (by decide),
        isFilenameSafe_cons 'i' (by decide) (by decide),
        isFilenameSafe_cons 'b' (by decide) (by decide)]
    rw [h, isFilenameSafe_replicate_append 'a' (by decide) (by decide)]
    decide
  · intro hmem
    rcases List.mem_append.1 hmem with h | h
    · revert h; decide
    · rcases List.mem_append.1 h with h | h
      · have := List.eq_of_mem_replicate h
        revert this; decide
      · revert h; decide
  · rw [List.length_append, List.length_append, List.length_replicate]
    have h1 : "lib/x86/lib".toList.length = 11 := by decide
    have h2 : ".so".toList.length = 3 := by decide
    rw [h1, h2]
    omega

/-- C5, as stated, fails twice. The base `lib/x.so` passes `isFilenameSafe`, begins with
`lib` and ends in `.so`, the label `arm` is not empty and holds no slash, the name
`lib/arm/lib/x.so` has 16 bytes, and `next` does not return the entry. The base of
`oversizedName` is safe, slash-free, begins with `lib` and ends in `.so`, the name has
4096 bytes, and `next` does not return the entry either, because the name does not fit
the iterator's buffer. -/
theorem next_rejects_nested_and_oversized_names :
    (isFilenameSafe "lib/x.so".toList = true ∧ "lib".toList <+: "lib/x.so".toList ∧
      LIB_SUFFIX <:+ "lib/x.so".toList ∧ '/' ∉ "arm".toList ∧
      14 ≤ (APK_LIB ++ "arm".toList ++ '/' :: "lib/x.so".toList).length ∧
      (NativeLibrariesIterator.next
        ⟨[⟨some (APK_LIB ++ "arm".toList ++ '/' :: "lib/x.so".toList), some ⟨0, 0, 0⟩, [],
          true⟩], [], 0⟩).1 = none) ∧
    (isFilenameSafe oversizedBase = true ∧ "lib".toList <+: oversizedBase ∧
      LIB_SUFFIX <:+ oversizedBase ∧ '/' ∉ oversizedBase ∧ '/' ∉ "x86".toList ∧
      APK_LIB ++ "x86".toList ++ '/' :: oversizedBase = oversizedName ∧
      oversizedName.length = 4096 ∧
      (NativeLibrariesIterator.next
        ⟨[⟨some oversizedName, some ⟨0, 0, 0⟩, [], true⟩], [], 0⟩).1 = none) := by
  have hfacts := padded_base_facts 4082
  have hlen : oversizedName.length = 4096 := hfacts.2.2
  refine ⟨by decide, hfacts.1, ⟨_, rfl⟩, ?_, hfacts.2.1, by decide, rfl, hlen, ?_⟩
  · exact ⟨"lib".toList ++ List.replicate 4082 'a', List.append_assoc _ _ _⟩
  · have hname : getEntryFileName ⟨some oversizedName, some ⟨0, 0, 0⟩, [], true⟩ PATH_MAX
        = none :=
      getEntryFileName_of_too_long rfl (by rw [hlen]; decide)
    simp only [NativeLibrariesIterator.next, nextLoop, hname]

/-- C5, amended. For a label and a base name `b` without slash that is `gdbserver`, or
passes `isFilenameSafe`, begins with `lib` and ends in `.so`: when the entry under the
cursor is named `lib/` + label + `/` + `b`, a string of at least 14 and at most 4095
bytes (so that it fits the iterator's buffer with its terminator), `next` returns that
entry and records the boundary at offset `4 + |label|`, which is the offset of the last
slash of the name; the slice from offset 4 to the boundary is the label and the text
after the boundary is `b`. -/
theorem next_accepts_library_name (label b : List Char) (e : ZipEntry)
    (cookie : List ZipEntry) (fileName : List Char) (mLastSlash : Nat)
    (he : e.name = some (APK_LIB ++ label ++ '/' :: b))
    (hstr : NUL ∉ APK_LIB ++ label ++ '/' :: b)
    (hbase : '/' ∉ b)
    (hb : b = GDBSERVER ∨
      (isFilenameSafe b = true ∧ "lib".toList <+: b ∧ LIB_SUFFIX <:+ b))
    (hlen : 14 ≤ (APK_LIB ++ label ++ '/' :: b).length)
    (hfit : (APK_LIB ++ label ++ '/' :: b).length < PATH_MAX) :
    NativeLibrariesIterator.next ⟨e :: cookie, fileName, mLastSlash⟩
      = (some e, ⟨cookie, APK_LIB ++ label ++ '/' :: b, 4 + label.length⟩) ∧
    strrchr (APK_LIB ++ label ++ '/' :: b) '/' = some (4 + label.length) ∧
    ((APK_LIB ++ label ++ '/' :: b).drop 4).take (4 + label.length - 4) = label ∧
    (APK_LIB ++ label ++ '/' :: b).drop (4 + label.length + 1) = b := by
  have hname := getEntryFileName_of_fits he hstr hfit
  have hlenA : (APK_LIB ++ label).length = 4 + label.length := by
    rw [List.length_append, show APK_LIB.length = 4 by rfl]
  have hr : strrchr (APK_LIB ++ label ++ '/' :: b) '/' = some (4 + label.length) := by
    rw [strrchr_append_cons _ _ _ hbase, hlenA]
  have hdrop1 : (APK_LIB ++ label ++ '/' :: b).drop (4 + label.length + 1) = b := by
    rw [show APK_LIB ++ label ++ '/' :: b = (APK_LIB ++ label ++ ['/']) ++ b by simp]
    rw [List.drop_left']
    rw [List.length_append, hlenA]
    rfl
  have hdrop0 : (APK_LIB ++ label ++ '/' :: b).drop (4 + label.length) = '/' :: b := by
    rw [List.drop_left' hlenA]
  have htake : (APK_LIB ++ label ++ '/' :: b).take 4 = APK_LIB := by
    rw [List.append_assoc, List.take_left']
    rfl
  have hslice : ((APK_LIB ++ label ++ '/' :: b).drop 4).take (4 + label.length - 4) = label := by
    rw [List.append_assoc, List.drop_left' (by rfl : APK_LIB.length = 4)]
    rw [show 4 + label.length - 4 = label.length by omega, List.take_left]
  have hacc : acceptEntry (APK_LIB ++ label ++ '/' :: b) = some (4 + label.length) := by
    rw [acceptEntry_eq_some_iff]
    refine ⟨htake, hlen, hr, ?_⟩
    rw [hdrop1, hdrop0]
    rcases hb with hb | ⟨hsafe, hpre, hsuf⟩
    · left
      rw [hb]
      rfl
    · right
      refine ⟨?_, ?_, hsafe⟩
      · have hsuf' : LIB_SUFFIX <:+ APK_LIB ++ label ++ '/' :: b := by
          obtain ⟨t, ht⟩ := hsuf
          exact ⟨APK_LIB ++ label ++ '/' :: t, by simp [← ht]⟩
        have h3 := List.suffix_iff_eq_drop.1 hsuf'
        rw [show LIB_SUFFIX.length = 3 by rfl] at h3
        rw [← h3]
        rfl
      · have h3 := List.prefix_iff_eq_take.1 hpre
        rw [show "lib".toList.length = 3 by rfl] at h3
        rw [show (4 : Nat) = 3 + 1 by rfl, List.take_succ_cons, ← h3]
        rfl
  refine ⟨?_, hr, hslice, hdrop1⟩
  exact nextLoop_cons_of_accept hname hacc cookie fileName mLastSlash

/-- C5, amended, at the name `lib/armeabi-v7a/libfoo.so`. -/
theorem next_accepts_library_name_witness :
    NUL ∉ "lib/armeabi-v7a/libfoo.so".toList ∧ '/' ∉ "libfoo.so".toList ∧
    "lib/armeabi-v7a/libfoo.so".toList.length < PATH_MAX ∧
    NativeLibrariesIterator.next ⟨[entryNamed "lib/armeabi-v7a/libfoo.so"], [], 0⟩
      = (some (entryNamed "lib/armeabi-v7a/libfoo.so"),
          ⟨[], "lib/armeabi-v7a/libfoo.so".toList, 15⟩) ∧
    strrchr "lib/armeabi-v7a/libfoo.so".toList '/' = some 15 ∧
    ("lib/armeabi-v7a/libfoo.so".toList.drop 4).take 11 = "armeabi-v7a".toList ∧
    "lib/armeabi-v7a/libfoo.so".toList.drop 16 = "libfoo.so".toList :=
  ⟨by decide, by decide, by decide,
    next_accepts_library_name "armeabi-v7a".toList "libfoo.so".toList
      (entryNamed "lib/armeabi-v7a/libfoo.so") [] [] 0 rfl (by decide) (by decide)
      (Or.inr ⟨by decide, by decide, by decide⟩) (by decide) (by decide)⟩

end NativeLibraryHelper
